import Mathlib

/-!
A verification development for the citation normalization, classification,
validation, deduplication and formatting pipeline of the `pdfsources`
repository.

The Python sources (`src/pdfsources/models.py`, `src/pdfsources/writers.py`,
`src/pdfsources/formatters/{base,chicago,apa,harvard}.py`) are shallowly
embedded here.  Python strings are modelled as `List Char`; Python string
operations (`str.replace`, `str.lower`, `str.strip`, `re.sub`-based helpers,
...) are modelled character-exactly for the ASCII range (the repository's
heuristics all operate on ASCII keywords; Unicode-only behaviour such as
non-ASCII case folding is out of scope of the embedding and noted where it
could matter).
-/

/-- Convert a string literal to the `List Char` representation used
throughout this development. -/
def sl (s : String) : List Char := s.data

/-! ## Character classes (ASCII model of the Python predicates) -/

/-- Python `\s` / `str.split()` whitespace, ASCII part:
space, tab, newline, carriage return, vertical tab, form feed. -/
def pyIsSpace (c : Char) : Bool :=
  c = ' ' || c = '\t' || c = '\n' || c = '\r' || c = '\x0b' || c = '\x0c'

/-- ASCII model of Python `str.isdigit` for a single character. -/
def pyIsDigit (c : Char) : Bool := '0' ≤ c && c ≤ '9'

/-- ASCII lowercase letter. -/
def pyIsLower (c : Char) : Bool := 'a' ≤ c && c ≤ 'z'

/-- ASCII uppercase letter. -/
def pyIsUpper (c : Char) : Bool := 'A' ≤ c && c ≤ 'Z'

/-- ASCII model of a "cased" character (a letter). -/
def pyIsAlpha (c : Char) : Bool := pyIsLower c || pyIsUpper c

/-- ASCII model of Python `str.isalnum` for a single character. -/
def pyIsAlnum (c : Char) : Bool := pyIsAlpha c || pyIsDigit c

/-- Python regex `\w` (word character): letters, digits, underscore. -/
def reIsWordChar (c : Char) : Bool := pyIsAlnum c || c = '_'

/-- ASCII model of `str.lower` on one character. -/
def pyToLower (c : Char) : Char :=
  if pyIsUpper c then Char.ofNat (c.toNat + 32) else c

/-- ASCII model of `str.upper` on one character. -/
def pyToUpper (c : Char) : Char :=
  if pyIsLower c then Char.ofNat (c.toNat - 32) else c

/-- `str.lower` on a whole string. -/
def pyLower (s : List Char) : List Char := s.map pyToLower

/-! ## `str.replace` (leftmost, non-overlapping, global) -/

/-- Worker for `pyReplace`.  The `Nat` argument is the number of already
matched characters that still have to be skipped (so the recursion is
structural in the text).  At skip `0` we test for a match of `pat` at the
current position; on a match we emit `rep` and skip the remaining
`pat.length - 1` matched characters. -/
def replAux (pat rep : List Char) : Nat → List Char → List Char
  | _, [] => []
  | Nat.succ k, _ :: rest => replAux pat rep k rest
  | 0, c :: rest =>
    if pat ≠ [] ∧ List.isPrefixOf pat (c :: rest) then
      rep ++ replAux pat rep (pat.length - 1) rest
    else
      c :: replAux pat rep 0 rest

/-- Python `hay.replace(pat, rep)`: global leftmost non-overlapping
replacement.  (All patterns used by the repository are non-empty; for an
empty pattern this model returns the text unchanged.) -/
def pyReplace (hay pat rep : List Char) : List Char := replAux pat rep 0 hay

/-- Python `pat in hay` (substring test). -/
def hasSub (pat : List Char) : List Char → Bool
  | [] => pat.isEmpty
  | c :: rest => List.isPrefixOf pat (c :: rest) || hasSub pat rest

/-! ## Whitespace normalisation: `re.sub(r'\s+', ' ', text).strip()` -/

/-- Worker for `pyCollapseWs`; the flag records whether we are inside a
whitespace run whose single replacement space has already been emitted. -/
def collapseAux : Bool → List Char → List Char
  | _, [] => []
  | true, c :: rest =>
    if pyIsSpace c then collapseAux true rest else c :: collapseAux false rest
  | false, c :: rest =>
    if pyIsSpace c then ' ' :: collapseAux true rest else c :: collapseAux false rest

/-- `re.sub(r'\s+', ' ', text)`: collapse every whitespace run to one space. -/
def pyCollapseWs (s : List Char) : List Char := collapseAux false s

/-- Python `str.lstrip()` (whitespace). -/
def pyLstrip (s : List Char) : List Char := s.dropWhile pyIsSpace

/-- Python `str.rstrip()` (whitespace). -/
def pyRstrip (s : List Char) : List Char := (s.reverse.dropWhile pyIsSpace).reverse

/-- Python `str.strip()` (whitespace, both ends). -/
def pyStrip (s : List Char) : List Char := pyRstrip (pyLstrip s)

/-! ## Ordering and sorting (Python's stable ascending `list.sort`) -/

/-- Lexicographic `≤` on strings by code point, as Python compares `str`. -/
def lexLe : List Char → List Char → Bool
  | [], _ => true
  | _ :: _, [] => false
  | a :: as_, b :: bs => if a = b then lexLe as_ bs else decide (a < b)

/-- Insert `x` after every element `y` with `le y x`; keeps equal keys in
arrival order, so the derived sort is stable. -/
def insertSorted (le : α → α → Bool) (x : α) : List α → List α
  | [] => [x]
  | y :: ys => if le y x then y :: insertSorted le x ys else x :: y :: ys

/-- A stable ascending sort.  Python's `list.sort` is also stable and
ascending, and a stable ascending sort w.r.t. a total preorder is unique,
so this models it exactly. -/
def stableSort (le : α → α → Bool) (l : List α) : List α :=
  l.foldl (fun acc x => insertSorted le x acc) []

/-! ## Further Python string methods used by the writers -/

/-- Worker for `pyTitle`: the flag records whether the previous character
was a letter (cased), which is Python's `str.title` word boundary. -/
def pyTitleAux : Bool → List Char → List Char
  | _, [] => []
  | prevAlpha, c :: rest =>
    (if pyIsAlpha c then (if prevAlpha then pyToLower c else pyToUpper c) else c)
      :: pyTitleAux (pyIsAlpha c) rest

/-- ASCII model of Python `str.title()`. -/
def pyTitle (s : List Char) : List Char := pyTitleAux false s

/-- ASCII model of Python `str.capitalize()`: first character uppercased,
the rest lowercased. -/
def pyCapitalize : List Char → List Char
  | [] => []
  | c :: rest => pyToUpper c :: pyLower rest

/-- ASCII model of Python `str.isupper()`: at least one cased character and
no lowercase character. -/
def pyIsUpperStr (s : List Char) : Bool :=
  s.any pyIsAlpha && s.all (fun c => !pyIsLower c)

/-- Python `os.path.basename` (POSIX): everything after the last `/`. -/
def pyBasename (s : List Char) : List Char :=
  (s.reverse.takeWhile (fun c => c ≠ '/')).reverse

/-- Decimal representation of a `Nat`, as Python's `str(len(...))`. -/
def natToStr (n : Nat) : List Char := (Nat.repr n).data

example : pyReplace (sl "aXbXc") (sl "X") (sl "YY") = sl "aYYbYYc" := by decide
example : pyReplace (sl "\\\\ab\\\\") (sl "\\\\") [] = sl "ab" := by decide
example : pyStrip (pyCollapseWs (sl "  a \t\n b ")) = sl "a b" := by decide
example : pyTitle (sl "anystyle-foo_bar 2x") = sl "Anystyle-Foo_Bar 2X" := by decide
example : stableSort lexLe [sl "b", sl "a", sl "ab"] = [sl "a", sl "ab", sl "b"] := by decide
example : hasSub (sl "bc") (sl "abcd") = true := by decide
example : hasSub (sl "bd") (sl "abcd") = false := by decide
example : natToStr 12 = sl "12" := by decide

/-! ## `models.py`: data model -/

/-- A raw/normalised scalar citation field
(`Optional[Union[str, List[str]]]` in the pydantic model).  The source's
field values of interest are `None`, strings and lists of strings; list
elements that are not strings only occur for malformed extractor output and
are outside this embedding (`normalize_string_fields` would stringify
them). -/
inductive RawField where
  | fnone
  | fstr (s : List Char)
  | flist (l : List (List Char))
deriving DecidableEq, Repr

/-- Python truthiness of a scalar field value (`None`, `''` and `[]` are
falsy). -/
def truthy : RawField → Bool
  | .fnone => false
  | .fstr s => !s.isEmpty
  | .flist l => !l.isEmpty

/-- `str(x or '')` for a scalar field: every falsy value gives `''`.
A non-empty list cannot occur after validation
(`normalize_string_fields_no_list` below), so the `flist` case of this
model never feeds a non-empty list to `str`. -/
def strOrEmpty : RawField → List Char
  | .fstr s => s
  | _ => []

/-- `models.Citation.normalize_string_fields` (pre-validator): a non-empty
list is collapsed to its stripped first element, a string is stripped,
anything else (including `None`, `[]`) is returned unchanged. -/
def normalize_string_fields : RawField → RawField
  | .flist (x :: _) => .fstr (pyStrip x)
  | .fstr s => .fstr (pyStrip s)
  | v => v

/-- `models.Citation.normalize_type` (pre-validator): a non-empty list is
collapsed to its first element (no stripping), anything else unchanged. -/
def normalize_type : RawField → RawField
  | .flist (x :: _) => .fstr x
  | v => v

/-- `models.Person`: author/editor name.  The `clean_whitespace`
pre-validator strips string fields at construction. -/
structure Person where
  family : Option (List Char)
  given : Option (List Char)
deriving DecidableEq, Repr

/-- `Person.clean_whitespace` validator on one optional name part. -/
def personClean (v : Option (List Char)) : Option (List Char) := v.map pyStrip

/-- Python truthiness of an optional string (`None` and `''` are falsy). -/
def optTruthy : Option (List Char) → Bool
  | some s => !s.isEmpty
  | none => false

/-- `models.Citation` after pydantic validation.  `author`/`editor` default
to `[]`; a raw `None` for them is modelled as `[]` (the code always guards
uses with `citation.author or []` / plain truthiness, which identifies the
two). -/
structure Citation where
  type : RawField := .fnone
  title : RawField := .fnone
  author : List Person := []
  editor : List Person := []
  container_title : RawField := .fnone
  volume : RawField := .fnone
  issue : RawField := .fnone
  pages : RawField := .fnone
  date : RawField := .fnone
  publisher : RawField := .fnone
  location : RawField := .fnone
deriving DecidableEq, Repr

/-- `models.CitationType`. -/
inductive CitationType where
  | book
  | articleJournal
  | articleNewspaper
  | chapter
  | report
  | thesis
  | webpage
  | other
deriving DecidableEq, Repr

/-- The `str` value of a `CitationType` member. -/
def ctValue : CitationType → List Char
  | .book => sl "book"
  | .articleJournal => sl "article-journal"
  | .articleNewspaper => sl "article-newspaper"
  | .chapter => sl "chapter"
  | .report => sl "report"
  | .thesis => sl "thesis"
  | .webpage => sl "webpage"
  | .other => sl "other"

/-- The `for ct in CitationType: if ct.value in type_str: return ct` loop of
`get_inferred_type`, in the enum's declaration order; `none` when no member
value occurs in the string. -/
def typeFromExplicit (ts : List Char) : Option CitationType :=
  if hasSub (sl "book") ts then some .book
  else if hasSub (sl "article-journal") ts then some .articleJournal
  else if hasSub (sl "article-newspaper") ts then some .articleNewspaper
  else if hasSub (sl "chapter") ts then some .chapter
  else if hasSub (sl "report") ts then some .report
  else if hasSub (sl "thesis") ts then some .thesis
  else if hasSub (sl "webpage") ts then some .webpage
  else if hasSub (sl "other") ts then some .other
  else none

def journal_indicators : List (List Char) :=
  [sl "journal", sl "review", sl "proceedings", sl "quarterly", sl "annual"]

def newspaper_indicators : List (List Char) :=
  [sl "times", sl "post", sl "herald", sl "news", sl "daily", sl "weekly"]

def press_indicators : List (List Char) :=
  [sl "university press", sl "academic press", sl "press", sl "publisher", sl "publishing"]

def thesis_indicators : List (List Char) :=
  [sl "dissertation", sl "thesis", sl "phd", sl "master's", sl "doctoral"]

def report_indicators : List (List Char) :=
  [sl "report", sl "working paper", sl "technical report", sl "policy brief"]

def webpage_indicators : List (List Char) :=
  [sl "website", sl "blog", sl "online", sl "web"]

/-- `models.Citation.get_inferred_type`.  On a truthy `type` field, the
first enum member whose value occurs in the lowercased type string wins;
with no match the field heuristics run in source order. -/
def get_inferred_type (c : Citation) : CitationType :=
  let explicit : Option CitationType :=
    if truthy c.type then typeFromExplicit (pyLower (strOrEmpty c.type)) else none
  match explicit with
  | some t => t
  | none =>
    let title_str := pyLower (strOrEmpty c.title)
    let publisher_str := pyLower (strOrEmpty c.publisher)
    let container_str := pyLower (strOrEmpty c.container_title)
    if truthy c.container_title then
      if journal_indicators.any (fun p => hasSub p container_str) then .articleJournal
      else if newspaper_indicators.any (fun p => hasSub p container_str) then .articleNewspaper
      else .articleJournal
    else if truthy c.publisher || truthy c.location then
      (if press_indicators.any (fun p => hasSub p publisher_str) then .book else .book)
    else if truthy c.volume || truthy c.issue then .articleJournal
    else if thesis_indicators.any (fun p => hasSub p title_str) then .thesis
    else if report_indicators.any (fun p => hasSub p title_str) then .report
    else if hasSub (sl "chapter") title_str || hasSub (sl "in:") title_str then .chapter
    else if webpage_indicators.any (fun p => hasSub p title_str) then .webpage
    else .other

/-- The junk title substrings rejected by `has_valid_content`. -/
def junk_patterns : List (List Char) :=
  [sl "ibid", sl "this content downloaded from", sl "all use subject to jstor",
   sl "terms and conditions of use", sl "access provided by", sl "downloaded by",
   sl "jstor is a not-for-profit", sl "the main topic discussed in", sl "790–791"]

/-- The dangling-word suffixes rejected by `has_valid_content`
(`str.endswith` on the lowercased title with this tuple). -/
def stop_words : List (List Char) :=
  [sl "the", sl "in", sl "of", sl "and", sl "or", sl "but", sl "was", sl "were"]

/-- Leading digit run of a string: its length and the remaining suffix. -/
def digitRun : List Char → Nat × List Char
  | [] => (0, [])
  | c :: rest =>
    if pyIsDigit c then
      let p := digitRun rest
      (p.1 + 1, p.2)
    else (0, c :: rest)

/-- Consume `\d{1,3}\.` at the start of the string, or fail.  Because `.`
is not a digit, the regex engine's greedy matching with backtracking
succeeds exactly when the maximal leading digit run has length 1..3 and is
followed by a literal dot. -/
def ipGroupDot (s : List Char) : Option (List Char) :=
  let p := digitRun s
  if 1 ≤ p.1 && p.1 ≤ 3 then
    match p.2 with
    | '.' :: r => some r
    | _ => none
  else none

/-- Consume `\d{1,3}\b` at the start of the string: maximal digit run of
length 1..3 followed by a non-word character or the end. -/
def ipLastGroup (s : List Char) : Bool :=
  let p := digitRun s
  (1 ≤ p.1 && p.1 ≤ 3) &&
    (match p.2 with
     | [] => true
     | c :: _ => !reIsWordChar c)

/-- Match `\d{1,3}\.\d{1,3}\.\d{1,3}\.\d{1,3}\b` at the start of the
string (the leading `\b` is the caller's concern). -/
def ipMatchAt (s : List Char) : Bool :=
  match ipGroupDot s with
  | some r1 =>
    match ipGroupDot r1 with
    | some r2 =>
      match ipGroupDot r2 with
      | some r3 => ipLastGroup r3
      | none => false
    | none => false
  | none => false

/-- Worker for `ipSearch`: scan all positions carrying whether the previous
character was a word character (for the leading `\b`; the pattern starts
with a digit, so the boundary holds exactly when the previous character is
not a word character or we are at the start). -/
def ipSearchAux : Bool → List Char → Bool
  | _, [] => false
  | prevWord, c :: rest =>
    (!prevWord && ipMatchAt (c :: rest)) || ipSearchAux (reIsWordChar c) rest

/-- `re.search(r'\b\d{1,3}\.\d{1,3}\.\d{1,3}\.\d{1,3}\b', title_str)` as a
Boolean. -/
def ipSearch (s : List Char) : Bool := ipSearchAux false s

/-- `models.Citation.has_valid_content`.  The 60%-alphanumeric test
`alphanumeric_chars < len(title_str) * 0.6` is modelled as the exact
integer comparison `10 * alnum < 6 * len`; the double-precision product
`len * 0.6` never rounds across an integer in a way that changes the
comparison (its distance to `0.6 * len` is below `1e-13 * len`, while the
nearest integer on the relevant side is at distance ≥ 0.2 unless
`0.6 * len` is itself that integer, in which case rounding reproduces it
exactly for every representable `len`).  The source's local `title_str`
binding is inlined. -/
def has_valid_content (c : Citation) : Bool :=
  if !truthy c.title then false
  else if (strOrEmpty c.title).length < 10 then false
  else if junk_patterns.any (fun p => hasSub p (pyLower (strOrEmpty c.title))) then false
  else if ((pyLower (strOrEmpty c.title)).any pyIsDigit
      && (pyLower (strOrEmpty c.title)).contains '.')
      && ipSearch (pyLower (strOrEmpty c.title)) then false
  else if 10 * ((pyLower (strOrEmpty c.title)).filter pyIsAlnum).length
      < 6 * (pyLower (strOrEmpty c.title)).length then false
  else if stop_words.any (fun w => List.isSuffixOf w (pyLower (strOrEmpty c.title))) then false
  else if c.author.isEmpty && c.editor.isEmpty then false
  else true

/-- The normalisation validator never produces a non-empty list, which is
what justifies `strOrEmpty` not modelling `str` of a non-empty list. -/
theorem normalize_string_fields_no_list (v : RawField) (x : List Char)
    (l : List (List Char)) : normalize_string_fields v ≠ .flist (x :: l) := by
  cases v with
  | fnone => simp [normalize_string_fields]
  | fstr s => simp [normalize_string_fields]
  | flist w => cases w <;> simp [normalize_string_fields]

example : get_inferred_type { title := .fstr (sl "A PhD thesis on things") } = .thesis := by decide
example : get_inferred_type { type := .fstr (sl "Book"), container_title := .fstr (sl "Journal of X") } = .book := by decide
example : has_valid_content { title := .fstr (sl "A Valid Title Here"), author := [⟨some (sl "Smith"), some (sl "J")⟩] } = true := by decide
example : has_valid_content { title := .fstr (sl "short"), author := [⟨some (sl "Smith"), none⟩] } = false := by decide
example : has_valid_content { title := .fstr (sl "A Long History of Berlin"), author := [⟨some (sl "Smith"), some (sl "J")⟩] } = false := by decide
example : ipSearch (sl "from 128.103.147.149 on") = true := by decide
example : ipSearch (sl "version 12.3 of 2024") = false := by decide

/-! ## `formatters/base.py` -/

/-- `clean_extracted_text`: strip doubled backslashes, unescape
PDF-extraction escaped punctuation, decode four HTML entities, collapse
whitespace runs and strip, in exactly the source's order. -/
def clean_extracted_text (text : List Char) : List Char :=
  let t := pyReplace text (sl "\\\\") []
  let t := pyReplace t (sl "\\(") (sl "(")
  let t := pyReplace t (sl "\\)") (sl ")")
  let t := pyReplace t (sl "\\[") (sl "[")
  let t := pyReplace t (sl "\\]") (sl "]")
  let t := pyReplace t (sl "\\\"") (sl "\"")
  let t := pyReplace t (sl "\\'") (sl "'")
  let t := pyReplace t (sl "\\\x7b") (sl "\x7b")
  let t := pyReplace t (sl "\\\x7d") (sl "\x7d")
  let t := pyReplace t (sl "&lt;") (sl "<")
  let t := pyReplace t (sl "&gt;") (sl ">")
  let t := pyReplace t (sl "&amp;") (sl "&")
  let t := pyReplace t (sl "&quot;") (sl "\"")
  pyStrip (pyCollapseWs t)

/-- The escaping part of `escape_markdown` that follows the initial
`clean_extracted_text` call: HTML-encode `<`/`>` and backslash-prefix each
markdown special character (the loop ends with the backslash itself, which
doubles every backslash present at that point). -/
def escapeSpecials (text : List Char) : List Char :=
  let t := pyReplace text (sl "<") (sl "&lt;")
  let t := pyReplace t (sl ">") (sl "&gt;")
  let t := pyReplace t (sl "[") (sl "\\[")
  let t := pyReplace t (sl "]") (sl "\\]")
  let t := pyReplace t (sl "(") (sl "\\(")
  let t := pyReplace t (sl ")") (sl "\\)")
  let t := pyReplace t (sl "*") (sl "\\*")
  let t := pyReplace t (sl "_") (sl "\\_")
  let t := pyReplace t (sl "`") (sl "\\`")
  let t := pyReplace t (sl "#") (sl "\\#")
  pyReplace t (sl "\\") (sl "\\\\")

/-- `escape_markdown`: clean the text, then escape markup characters. -/
def escape_markdown (text : List Char) : List Char :=
  escapeSpecials (clean_extracted_text text)

/-- The surname particles lowercased by `normalize_author_case`. -/
def particles : List (List Char) :=
  [sl "van", sl "von", sl "de", sl "da", sl "del", sl "della", sl "du",
   sl "le", sl "la", sl "el", sl "al", sl "der"]

/-- Worker for `reWordReplace` (`re.sub(r'\bw\b', repl, s)`): scan the
string carrying whether the previous character is a word character; the
`Nat` is the number of matched characters still to skip.  A match needs no
word character before, the literal word `w`, and no word character (or the
end) after; scanning resumes after the match, as `re.sub` does. -/
def reWordAux (w repl : List Char) : Bool → Nat → List Char → List Char
  | _, _, [] => []
  | _, Nat.succ k, c :: rest => reWordAux w repl (reIsWordChar c) k rest
  | prevWord, 0, c :: rest =>
    if !prevWord && w ≠ [] && List.isPrefixOf w (c :: rest)
        && (match List.drop (w.length - 1) rest with
            | [] => true
            | d :: _ => !reIsWordChar d) then
      repl ++ reWordAux w repl (reIsWordChar c) (w.length - 1) rest
    else
      c :: reWordAux w repl (reIsWordChar c) 0 rest

/-- `re.sub(rf'\b{w}\b', repl, s)` for a literal word `w`. -/
def reWordReplace (w repl s : List Char) : List Char := reWordAux w repl false 0 s

/-- `normalize_author_case`: title-case an all-caps name, then lowercase
each standalone capitalized particle, then rewrite standalone `Der` to
`de`.  The source's final two `re.sub` calls replace `Mc<cap>` and
`O'<cap>` matches with themselves and are identities. -/
def normalize_author_case (text : List Char) : List Char :=
  let t := if pyIsUpperStr text then pyTitle text else text
  let t := particles.foldl (fun acc p => reWordReplace (pyTitle p) p acc) t
  reWordReplace (sl "Der") (sl "de") t

/-- The name of one person in `get_author_string`: `"Family, Given"` when
both parts are truthy, just the family when only it is, nothing otherwise,
each part cleaned, case-normalised and escaped. -/
def personName (p : Person) : Option (List Char) :=
  if optTruthy p.family && optTruthy p.given then
    some (escape_markdown (normalize_author_case (clean_extracted_text (p.family.getD [])))
          ++ sl ", "
          ++ escape_markdown (normalize_author_case (clean_extracted_text (p.given.getD []))))
  else if optTruthy p.family then
    some (escape_markdown (normalize_author_case (clean_extracted_text (p.family.getD []))))
  else none

/-- Join rendered names: `", "`-separated with a final `", and "`. -/
def joinAuthorNames (names : List (List Char)) : List Char :=
  if names.length > 1 then
    List.intercalate (sl ", ") names.dropLast ++ sl ", and " ++ names.getLastD []
  else names.headD []

/-- `get_author_string`: renders authors, or editors when there are no
authors; persons keep only truthy name parts; the `", eds."` suffix is
appended whenever `editors` is non-empty. -/
def get_author_string (authors editors : List Person) : List Char :=
  if authors.isEmpty && editors.isEmpty then []
  else
    let items := if !authors.isEmpty then authors else editors
    let names := items.filterMap personName
    if names.isEmpty then []
    else
      let author_string := joinAuthorNames names
      if !editors.isEmpty then author_string ++ sl ", eds." else author_string

/-- `" ".join(filter(None, entry_parts)).replace("..", ".").strip()`, the
shared finalisation of all three formatters. -/
def finalizeEntry (parts : List (List Char)) : List Char :=
  pyStrip (pyReplace (List.intercalate (sl " ") (parts.filter (fun p => !p.isEmpty)))
    (sl "..") (sl "."))

/-! ## `formatters/chicago.py`, `formatters/apa.py`, `formatters/harvard.py`

The formatters read `citation.title` (and other scalar fields) directly;
after validation these are strings whenever truthy, so `strOrEmpty` is the
value the Python code sees (on the falsy values the branches below are not
taken, matching the guards in the source). -/

/-- `ChicagoFormatter.format`. -/
def chicago_format (c : Citation) : List Char :=
  if !has_valid_content c then []
  else
    let author_string := get_author_string c.author c.editor
    let p1 : List (List Char) :=
      if !author_string.isEmpty then [author_string ++ sl "."] else []
    let ref_type := get_inferred_type c
    let escaped_title := escape_markdown (strOrEmpty c.title)
    let p2 := p1 ++ [if ref_type = .book then sl "*" ++ escaped_title ++ sl "*."
                     else sl "\"" ++ escaped_title ++ sl "\"."]
    let p3 := p2 ++ (if truthy c.container_title then
        [sl "*" ++ escape_markdown (strOrEmpty c.container_title) ++ sl "*"] else [])
    let p4 := p3 ++ (if truthy c.volume then [strOrEmpty c.volume] else [])
    let p5 := p4 ++ (if truthy c.issue then [sl "no. " ++ strOrEmpty c.issue] else [])
    let p6 := p5 ++ (if truthy c.date then [sl "(" ++ strOrEmpty c.date ++ sl ")"] else [])
    let p7 := p6 ++ (if truthy c.pages then [strOrEmpty c.pages ++ sl "."] else [])
    let p8 := p7 ++ (if truthy c.publisher then
        [if truthy c.location then
           escape_markdown (strOrEmpty c.location) ++ sl ": "
             ++ escape_markdown (strOrEmpty c.publisher)
         else escape_markdown (strOrEmpty c.publisher)] else [])
    let p9 := p8 ++ (if ref_type = .book && truthy c.date
        && !p8.contains (sl "(" ++ strOrEmpty c.date ++ sl ")") then
        [strOrEmpty c.date ++ sl "."] else [])
    finalizeEntry p9

/-- `APAFormatter.format`. -/
def apa_format (c : Citation) : List Char :=
  if !has_valid_content c then []
  else
    let author_string := get_author_string c.author c.editor
    let p1 : List (List Char) := if !author_string.isEmpty then [author_string] else []
    let p2 := p1 ++ (if truthy c.date then [sl "(" ++ strOrEmpty c.date ++ sl ")."] else [])
    if !truthy c.title then []
    else
      let p3 := p2 ++ [escape_markdown (strOrEmpty c.title)]
      let p4 := p3 ++ (if truthy c.container_title then
          [sl "*" ++ escape_markdown (strOrEmpty c.container_title) ++ sl "*"] else [])
      let p5 := p4 ++ (if truthy c.volume then [sl ", *" ++ strOrEmpty c.volume ++ sl "*"] else [])
      let p6 := p5 ++ (if truthy c.issue then [sl "(" ++ strOrEmpty c.issue ++ sl ")"] else [])
      let p7 := p6 ++ (if truthy c.pages then [sl ", " ++ strOrEmpty c.pages ++ sl "."] else [])
      let p8 := p7 ++ (if truthy c.publisher then
          [if truthy c.location then
             escape_markdown (strOrEmpty c.location) ++ sl ": "
               ++ escape_markdown (strOrEmpty c.publisher) ++ sl "."
           else escape_markdown (strOrEmpty c.publisher) ++ sl "."] else [])
      finalizeEntry p8

/-- `HarvardFormatter.format`. -/
def harvard_format (c : Citation) : List Char :=
  if !has_valid_content c then []
  else
    let author_string := get_author_string c.author c.editor
    let p1 : List (List Char) := if !author_string.isEmpty then [author_string] else []
    let p2 := p1 ++ (if truthy c.date then [strOrEmpty c.date ++ sl ","] else [])
    if !truthy c.title then []
    else
      let p3 := p2 ++ [sl "*" ++ escape_markdown (strOrEmpty c.title) ++ sl "*."]
      let p4 := p3 ++ (if truthy c.publisher then
          [if truthy c.location then
             escape_markdown (strOrEmpty c.location) ++ sl ": "
               ++ escape_markdown (strOrEmpty c.publisher) ++ sl "."
           else escape_markdown (strOrEmpty c.publisher) ++ sl "."] else [])
      finalizeEntry p4

example : escape_markdown (sl "[Click here](http://x)")
    = sl "\\\\[Click here\\\\]\\\\(http://x\\\\)" := by decide
example : get_author_string [⟨some (sl "Smith"), some (sl "J")⟩] []
    = sl "Smith, J" := by decide
example : get_author_string [] [⟨some (sl "Editor"), some (sl "E.")⟩]
    = sl "Editor, E., eds." := by decide
example : get_author_string [⟨some (sl "Smith"), some (sl "J")⟩]
    [⟨some (sl "Doe"), some (sl "E")⟩] = sl "Smith, J, eds." := by decide
example : normalize_author_case (sl "VAN DER BERG") = sl "van der Berg" := by decide
example : normalize_author_case (sl "Von Der Berg") = sl "von der Berg" := by decide

/-! ## `writers.py` -/

/-- `get_citation_signature`: lowercased alphanumeric title, sorted
alphanumeric lowercased family names of the first two authors, first four
digits of the date. -/
def get_citation_signature (c : Citation) : List Char :=
  let title_part := (pyLower (strOrEmpty c.title)).filter pyIsAlnum
  let author_names := (c.author.take 2).filterMap (fun a =>
    match a.family with
    | some f => if !f.isEmpty then some ((pyLower f).filter pyIsAlnum) else none
    | none => none)
  let author_part := (stableSort lexLe author_names).flatten
  let year_part := ((strOrEmpty c.date).filter pyIsDigit).take 4
  title_part ++ author_part ++ year_part

/-- What `json.load` + the `isinstance(data, list)` test yield for one
input file: an exception (unreadable file / JSON decode error), a JSON
value that is not a list, or a list of records.  Records are modelled
post-`parse_citation`, i.e. as `Citation`s (a record that fails parsing
becomes the empty `Citation()`, which `parse_citation` returns on any
exception). -/
inductive FileContent where
  | unreadable
  | notList
  | items (l : List Citation)
deriving DecidableEq

/-- One input collection: its file name and its content. -/
structure SourceFile where
  name : List Char
  content : FileContent
deriving DecidableEq

/-- The inner per-file loop of `load_citations_from_files`: keep valid
citations; when deduplicating, keep one only if its signature is non-empty
and unseen (otherwise it is counted as a duplicate and dropped).  Returns
the kept citations and the updated seen-signature set (modelled as a
list with membership). -/
def loadItems (dedup : Bool) : List Citation → List (List Char) → List Citation × List (List Char)
  | [], seen => ([], seen)
  | c :: rest, seen =>
    if has_valid_content c then
      if dedup then
        let s := get_citation_signature c
        if !s.isEmpty && !seen.contains s then
          let p := loadItems dedup rest (s :: seen)
          (c :: p.1, p.2)
        else loadItems dedup rest seen
      else
        let p := loadItems dedup rest seen
        (c :: p.1, p.2)
    else loadItems dedup rest seen

/-- The outer per-file loop of `load_citations_from_files`: unreadable
files and non-list JSON contribute nothing and leave the seen set
unchanged. -/
def loadFiles (dedup : Bool) : List SourceFile → List (List Char) → List Citation
  | [], _ => []
  | f :: rest, seen =>
    match f.content with
    | .items l =>
      let p := loadItems dedup l seen
      p.1 ++ loadFiles dedup rest p.2
    | _ => loadFiles dedup rest seen

/-- `BibliographyWriter.load_citations_from_files(json_files, deduplicate=True)`. -/
def load_citations_from_files (files : List SourceFile) (dedup : Bool := true) :
    List Citation :=
  loadFiles dedup files []

/-- `ref_type.replace('-', ' ').title()`: section heading text for a type. -/
def ctDocName (t : CitationType) : List Char :=
  pyTitle (pyReplace (ctValue t) (sl "-") (sl " "))

/-- The sort key `x.split(',')[0].lower() if x.split(',')[0] else x` used by
every `refs.sort(...)` call in the writers. -/
def sortKey (x : List Char) : List Char :=
  let seg := x.takeWhile (fun c => c ≠ ',')
  if !seg.isEmpty then pyLower seg else x

/-- The comparison Python's stable sort uses with `sortKey`. -/
def entryLe (a b : List Char) : Bool := lexLe (sortKey a) (sortKey b)

/-- `refs.sort(key=...)` on a list of formatted entries. -/
def sortEntries (l : List (List Char)) : List (List Char) := stableSort entryLe l

/-- `defaultdict(list)` grouping in insertion order: append the entry to
its type's bucket, creating the bucket at the end on first sight. -/
def groupInsert (groups : List (CitationType × List (List Char)))
    (t : CitationType) (e : List Char) : List (CitationType × List (List Char)) :=
  match groups with
  | [] => [(t, [e])]
  | (t', es) :: rest =>
    if t' = t then (t', es ++ [e]) :: rest else (t', es) :: groupInsert rest t e

/-- The grouping loop of `write_divided_bibliography`: only non-empty
formatted entries are recorded, keyed by inferred type. -/
def groupCitations (fmt : Citation → List Char) (cs : List Citation) :
    List (CitationType × List (List Char)) :=
  cs.foldl (fun gs c =>
    let e := fmt c
    if !e.isEmpty then groupInsert gs (get_inferred_type c) e else gs) []

/-- `* entry` lines for a sorted list of entries. -/
def entryLines (es : List (List Char)) : List Char :=
  ((sortEntries es).map (fun e => sl "* " ++ e ++ sl "\n")).flatten

/-- One `## Type` section of the divided bibliography. -/
def typeSection (g : CitationType × List (List Char)) : List Char :=
  sl "## " ++ ctDocName g.1 ++ sl "\n\n" ++ entryLines g.2 ++ sl "\n"

/-- `write_divided_bibliography` as the text document it writes
(`self.load_citations_from_files(json_files)` uses the default
`deduplicate=True`). -/
def write_divided_doc (fmt : Citation → List Char) (styleName : List Char)
    (files : List SourceFile) : List Char :=
  let citations := load_citations_from_files files true
  sl "# Bibliography (" ++ pyCapitalize styleName ++ sl ")\n\n"
    ++ ((groupCitations fmt citations).map typeSection).flatten

/-- `write_combined_bibliography` as the text document it writes (also via
the deduplicating loader with its default). -/
def write_combined_doc (fmt : Citation → List Char) (styleName : List Char)
    (files : List SourceFile) : List Char :=
  let citations := load_citations_from_files files true
  let all_refs := citations.filterMap (fun c =>
    let e := fmt c
    if e.isEmpty then none else some e)
  sl "# Bibliography (" ++ pyCapitalize styleName ++ sl ")\n\n" ++ entryLines all_refs

/-- Source heading name on the successful-read path:
`os.path.basename(f).replace('.json','').replace('anystyle-','')
.replace('_',' ').title()`. -/
def srcName (file_name : List Char) : List Char :=
  pyTitle (pyReplace (pyReplace (pyReplace (pyBasename file_name)
    (sl ".json") []) (sl "anystyle-") []) (sl "_") (sl " "))

/-- Source heading name on the exception path:
`f.replace('.json','').replace('info/','').replace('anystyle-','')`. -/
def srcNameExc (file_name : List Char) : List Char :=
  pyReplace (pyReplace (pyReplace file_name (sl ".json") []) (sl "info/") [])
    (sl "anystyle-") []

/-- The valid, non-empty formatted entries of one readable collection, in
record order (the `valid_citations` list of `write_sources_bibliography`). -/
def sourceEntries (fmt : Citation → List Char) (l : List Citation) : List (List Char) :=
  l.filterMap (fun c =>
    if has_valid_content c then
      let e := fmt c
      if e.isEmpty then none else some e
    else none)

/-- One per-source block of `write_sources_bibliography`, including the
trailing newline written after the `try`/`except`. -/
def sourcesBlock (fmt : Citation → List Char) (f : SourceFile) : List Char :=
  (match f.content with
   | .unreadable => sl "## " ++ srcNameExc f.name ++ sl " (0 sources)\n\n"
   | .notList => sl "## " ++ srcName f.name ++ sl " (0 sources)\n\n"
   | .items l =>
     let vc := sourceEntries fmt l
     if !vc.isEmpty then
       sl "## " ++ srcName f.name ++ sl " (" ++ natToStr vc.length ++ sl " sources)\n\n"
         ++ entryLines vc
     else sl "## " ++ srcName f.name ++ sl " (0 sources)\n\n")
  ++ sl "\n"

/-- `write_sources_bibliography` as the text document it writes.  It never
calls the deduplicating loader: each collection is re-read independently. -/
def write_sources_doc (fmt : Citation → List Char) (styleName : List Char)
    (files : List SourceFile) : List Char :=
  sl "# Bibliography by Source (" ++ pyCapitalize styleName ++ sl ")\n\n"
    ++ (files.map (sourcesBlock fmt)).flatten

/-- The per-collection type grouping of `write_sources_divided_bibliography`. -/
def sourceGroups (fmt : Citation → List Char) (l : List Citation) :
    List (CitationType × List (List Char)) :=
  l.foldl (fun gs c =>
    if has_valid_content c then
      let e := fmt c
      if e.isEmpty then gs else groupInsert gs (get_inferred_type c) e
    else gs) []

/-- One per-source block of `write_sources_divided_bibliography`. -/
def srcDivBlock (fmt : Citation → List Char) (f : SourceFile) : List Char :=
  (match f.content with
   | .unreadable => sl "## " ++ srcNameExc f.name ++ sl " (0 sources)\n\n"
   | .notList => sl "## " ++ srcName f.name ++ sl " (0 sources)\n\n"
   | .items l =>
     let groups := sourceGroups fmt l
     let total := (groups.map (fun g => g.2.length)).sum
     if !groups.isEmpty then
       sl "## " ++ srcName f.name ++ sl " (" ++ natToStr total ++ sl " sources)\n\n"
         ++ (groups.map (fun g =>
              sl "### " ++ ctDocName g.1 ++ sl "\n\n" ++ entryLines g.2 ++ sl "\n")).flatten
     else sl "## " ++ srcName f.name ++ sl " (0 sources)\n\n")
  ++ sl "\n"

/-- `write_sources_divided_bibliography` as the text document it writes;
it also never calls the deduplicating loader. -/
def write_sources_divided_doc (fmt : Citation → List Char) (styleName : List Char)
    (files : List SourceFile) : List Char :=
  sl "# Bibliography by Source with Categories (" ++ pyCapitalize styleName ++ sl ")\n\n"
    ++ (files.map (srcDivBlock fmt)).flatten

/-! ## Helper notions used only to state claims -/

/-- The final whitespace-delimited word of a string (used to state the
"standalone final word" reading of the dangling-word filter). -/
def lastWord (s : List Char) : List Char :=
  (s.reverse.takeWhile (fun c => !pyIsSpace c)).reverse

/-- A generic well-formed citation used as a concrete instance in
witnesses. -/
def cGood : Citation :=
  { title := .fstr (sl "Test Article Title"),
    author := [⟨some (sl "Smith"), some (sl "J")⟩],
    date := .fstr (sl "2024") }

example : has_valid_content cGood = true := by decide

/-! ## Claim C4 -/

/-- Claim C4 counterexample: `normalize_string_fields` returns an empty
sequence and an empty string unchanged; the normalized field is not absent
(`fnone`) in either case, contrary to the claim. -/
theorem C4_empty_not_absent_counterexample :
    normalize_string_fields (.flist []) = .flist [] ∧
    normalize_string_fields (.fstr []) = .fstr [] ∧
    (RawField.flist [] ≠ .fnone) ∧ (RawField.fstr [] ≠ .fnone) := by
  refine ⟨rfl, rfl, by simp, by simp⟩

/-- Claim C4 as amended: an empty sequence normalizes to the empty
sequence and an empty string to the empty string (both falsy, treated as
missing by every downstream truthiness check, but not the absent value);
a non-empty sequence of strings collapses to its first element trimmed,
and a string is trimmed. -/
theorem C4_normalize_amended :
    normalize_string_fields (.flist []) = .flist [] ∧
    normalize_string_fields (.fstr []) = .fstr [] ∧
    truthy (RawField.flist []) = false ∧
    truthy (RawField.fstr []) = false ∧
    (∀ x xs, normalize_string_fields (.flist (x :: xs)) = .fstr (pyStrip x)) ∧
    (∀ s, normalize_string_fields (.fstr s) = .fstr (pyStrip s)) := by
  refine ⟨rfl, rfl, rfl, rfl, fun x xs => rfl, fun s => rfl⟩

/-! ## Claim C2 -/

/-- Claim C2 counterexample: with both an author and an editor present,
`get_author_string` renders the author and still appends `", eds."`,
because the suffix is guarded only by `if editors:`. -/
theorem C2_both_present_counterexample :
    get_author_string [⟨some (sl "Smith"), some (sl "J")⟩]
        [⟨some (sl "Doe"), some (sl "E")⟩] = sl "Smith, J, eds." ∧
    List.isSuffixOf (sl ", eds.") (get_author_string
        [⟨some (sl "Smith"), some (sl "J")⟩] [⟨some (sl "Doe"), some (sl "E")⟩]) = true := by
  exact ⟨by decide, by decide⟩

/-- Claim C2 as amended: the author block is built from the authors
whenever any author is present, but the `", eds."` suffix is appended
whenever the editor sequence is non-empty — including when both authors
and editors are present. -/
theorem C2_eds_suffix_amended (authors editors : List Person)
    (he : editors ≠ []) (hne : get_author_string authors editors ≠ []) :
    List.isSuffixOf (sl ", eds.") (get_author_string authors editors) = true := by
  have heb : editors.isEmpty = false := by
    cases editors with
    | nil => exact absurd rfl he
    | cons x xs => rfl
  unfold get_author_string at hne ⊢
  simp only [heb, Bool.and_false, Bool.not_false, Bool.false_eq_true, if_false,
    ite_true, if_true] at hne ⊢
  generalize hN : List.filterMap personName
      (if (!authors.isEmpty) = true then authors else editors) = N at hne ⊢
  cases N with
  | nil => exact absurd rfl hne
  | cons x xs =>
    simp only [List.isEmpty_cons, Bool.false_eq_true, if_false] at hne ⊢
    rw [List.isSuffixOf_iff_suffix]
    exact List.suffix_append _ _

/-- Claim C2 witness: the amended suffix rule applied at concrete authors
and editors. -/
theorem C2_eds_suffix_amended_witness :
    List.isSuffixOf (sl ", eds.")
      (get_author_string [⟨some (sl "Miller"), some (sl "A")⟩]
        [⟨some (sl "Jones"), some (sl "B")⟩]) = true :=
  C2_eds_suffix_amended [⟨some (sl "Miller"), some (sl "A")⟩]
    [⟨some (sl "Jones"), some (sl "B")⟩] (by decide) (by decide)

/-! ## Claim C5 -/

/-- A citation whose title's last standalone word (`Berlin`) is not in the
stop-set but whose character suffix (`in`) is. -/
def cBerlin : Citation :=
  { title := .fstr (sl "A Long History of Berlin"),
    author := [⟨some (sl "Smith"), some (sl "J")⟩] }

/-- Claim C5 counterexample: `cBerlin` meets every validity condition other
than the dangling-word test, its last standalone word `berlin` is not in
the stop-set, yet `has_valid_content` rejects it — the code tests raw
string suffixes (`str.endswith`), not standalone final words. -/
theorem C5_suffix_not_word_counterexample :
    truthy cBerlin.title = true ∧
    ¬((strOrEmpty cBerlin.title).length < 10) ∧
    junk_patterns.any (fun p => hasSub p (pyLower (strOrEmpty cBerlin.title))) = false ∧
    (((pyLower (strOrEmpty cBerlin.title)).any pyIsDigit
        && (pyLower (strOrEmpty cBerlin.title)).contains '.')
      && ipSearch (pyLower (strOrEmpty cBerlin.title))) = false ∧
    ¬(10 * ((pyLower (strOrEmpty cBerlin.title)).filter pyIsAlnum).length
        < 6 * (pyLower (strOrEmpty cBerlin.title)).length) ∧
    (cBerlin.author.isEmpty && cBerlin.editor.isEmpty) = false ∧
    stop_words.contains (lastWord (pyLower (strOrEmpty cBerlin.title))) = false ∧
    has_valid_content cBerlin = false := by
  decide

/-- Claim C5 as amended: given every other validity condition, a citation
is valid exactly when its lowercased title does not end — as a raw
character suffix, even inside a longer final word — with one of the eight
stop strings. -/
theorem C5_dangling_suffix_amended (c : Citation)
    (h1 : truthy c.title = true)
    (h2 : ¬((strOrEmpty c.title).length < 10))
    (h3 : junk_patterns.any (fun p => hasSub p (pyLower (strOrEmpty c.title))) = false)
    (h4 : (((pyLower (strOrEmpty c.title)).any pyIsDigit
        && (pyLower (strOrEmpty c.title)).contains '.')
      && ipSearch (pyLower (strOrEmpty c.title))) = false)
    (h5 : ¬(10 * ((pyLower (strOrEmpty c.title)).filter pyIsAlnum).length
        < 6 * (pyLower (strOrEmpty c.title)).length))
    (h6 : (c.author.isEmpty && c.editor.isEmpty) = false) :
    has_valid_content c = true ↔
      stop_words.any (fun w => List.isSuffixOf w (pyLower (strOrEmpty c.title))) = false := by
  unfold has_valid_content
  cases hs : stop_words.any (fun w => List.isSuffixOf w (pyLower (strOrEmpty c.title))) with
  | true => simp [h1, h2, h3, h4, h5, h6, hs]
  | false =>
    simp [h1, h2, h3, h5, h6, hs]
    simp only [Bool.and_eq_false_iff] at h4
    simpa using h4

/-- Claim C5 witness: the amended criterion applied to a concrete valid
citation. -/
theorem C5_dangling_suffix_witness :
    has_valid_content cGood = true ↔
      stop_words.any (fun w => List.isSuffixOf w (pyLower (strOrEmpty cGood.title))) = false :=
  C5_dangling_suffix_amended cGood (by decide) (by decide) (by decide) (by decide)
    (by decide) (by decide)

/-! ## Claim C6 -/

/-- Claim C6: an explicit `type` containing `book` (after lowercasing)
classifies as `book`, whatever the other fields hold — `book` is the first
member tested by the explicit-type loop, which precedes every field
heuristic. -/
theorem C6_explicit_book_wins (c : Citation) (t : List Char)
    (ht : c.type = .fstr t)
    (hb : hasSub (sl "book") (pyLower t) = true) :
    get_inferred_type c = .book := by
  have hne : t ≠ [] := by
    intro h
    rw [h] at hb
    exact absurd hb (by decide)
  have htr : truthy c.type = true := by
    rw [ht]
    simpa [truthy, List.isEmpty_iff] using hne
  unfold get_inferred_type
  rw [htr, ht]
  simp only [strOrEmpty, typeFromExplicit, hb, if_true]

/-- Claim C6 witness: a citation whose explicit type is `Book` while every
heuristic field points elsewhere (journal container, volume, issue,
publisher, location, thesis-looking title) still classifies as `book`. -/
theorem C6_explicit_book_wins_witness :
    get_inferred_type
      { type := .fstr (sl "Book"),
        title := .fstr (sl "A PhD dissertation online"),
        container_title := .fstr (sl "Journal of Examples"),
        volume := .fstr (sl "12"), issue := .fstr (sl "3"),
        publisher := .fstr (sl "University Press"),
        location := .fstr (sl "Berlin") } = .book :=
  C6_explicit_book_wins _ (sl "Book") rfl (by decide)

/-! ## Claim C3 -/

/-- An otherwise valid citation whose title is the markdown-injection
probe from the specification. -/
def cInject : Citation :=
  { title := .fstr (sl "[Click here](http://x)"),
    author := [⟨some (sl "Smith"), some (sl "J")⟩] }

example : has_valid_content cInject = true := by decide

/-- Claim C3: for the title `[Click here](http://x)` none of the three
style formatters emits the literal character sequence `](` — every `]` and
`(` of the input is rendered with escaping backslashes in front of it (the
escape loop's final backslash-doubling pass leaves two backslashes before
each, so the link construct still cannot survive), and the escaped title
itself is free of `](` as well. -/
theorem C3_no_markdown_link :
    hasSub (sl "](") (chicago_format cInject) = false ∧
    hasSub (sl "](") (apa_format cInject) = false ∧
    hasSub (sl "](") (harvard_format cInject) = false ∧
    hasSub (sl "](") (escape_markdown (sl "[Click here](http://x)")) = false := by
  decide

/-! ## Claim C9 -/

/-- Helper: a valid citation has at least one alphanumeric character in its
lowercased title (length ≥ 10 and at least 60% alphanumeric force ≥ 6). -/
theorem title_part_nonempty_of_valid (c : Citation) (h : has_valid_content c = true) :
    (pyLower (strOrEmpty c.title)).filter pyIsAlnum ≠ [] := by
  unfold has_valid_content at h
  split_ifs at h with hc1 hc2 hc3 hc4 hc5 hc6 hc7
  have hlen : (pyLower (strOrEmpty c.title)).length = (strOrEmpty c.title).length :=
    List.length_map _ _
  have h6 : 6 ≤ ((pyLower (strOrEmpty c.title)).filter pyIsAlnum).length := by omega
  intro hnil
  rw [hnil] at h6
  simp at h6

/-- Helper: a valid citation has a non-empty deduplication signature (the
signature starts with the alphanumeric-filtered title). -/
theorem signature_ne_nil_of_valid (c : Citation) (h : has_valid_content c = true) :
    get_citation_signature c ≠ [] := by
  have ht := title_part_nonempty_of_valid c h
  intro hnil
  unfold get_citation_signature at hnil
  simp only [List.append_eq_nil] at hnil
  exact ht hnil.1.1

/-- Claim C9: validity forces a non-empty signature — the ≥ 10-character,
≥ 60%-alphanumeric title contributes at least one alphanumeric character to
the signature's title part. -/
theorem C9_valid_implies_signature_nonempty (c : Citation)
    (h : has_valid_content c = true) :
    (pyLower (strOrEmpty c.title)).filter pyIsAlnum ≠ [] ∧
    get_citation_signature c ≠ [] :=
  ⟨title_part_nonempty_of_valid c h, signature_ne_nil_of_valid c h⟩

/-- Claim C9 witness at a concrete valid citation. -/
theorem C9_valid_implies_signature_nonempty_witness :
    (pyLower (strOrEmpty cGood.title)).filter pyIsAlnum ≠ [] ∧
    get_citation_signature cGood ≠ [] :=
  C9_valid_implies_signature_nonempty cGood (by decide)

/-! ## Claim C1 -/

/-- Claim C1 counterexample: two citations with empty signatures (the
default-constructed `Citation()`: no title, no authors, no date) do not
both appear in the deduplicated load result — neither appears, because the
validity filter rejects them before deduplication is consulted. -/
theorem C1_empty_signature_counterexample :
    get_citation_signature ({} : Citation) = [] ∧
    load_citations_from_files [⟨sl "a.json", .items [{}, {}]⟩] true = [] := by
  exact ⟨by decide, by decide⟩

/-- Helper: every citation kept by the deduplicating inner loop has a
non-empty signature (the keep branch is guarded by `if signature and ...`). -/
theorem loadItems_kept_signature_ne_nil :
    ∀ (l : List Citation) (seen : List (List Char)) (c : Citation),
      c ∈ (loadItems true l seen).1 → get_citation_signature c ≠ [] := by
  intro l
  induction l with
  | nil => intro seen c hc; simp [loadItems] at hc
  | cons c' rest ih =>
    intro seen c hc
    unfold loadItems at hc
    by_cases hv : has_valid_content c' = true
    · simp only [hv, if_true, ite_true] at hc
      by_cases hk : (!(get_citation_signature c').isEmpty
          && !seen.contains (get_citation_signature c')) = true
      · simp only [hk, if_true, ite_true] at hc
        rcases List.mem_cons.mp hc with h | h
        · subst h
          have hk1 := (Bool.and_eq_true _ _ ▸ hk).1
          simp only [Bool.not_eq_true'] at hk1
          simpa [List.isEmpty_iff] using hk1
        · exact ih _ c h
      · simp only [hk, if_false, Bool.false_eq_true, ite_false] at hc
        exact ih _ c hc
    · simp only [hv, if_false, Bool.false_eq_true, ite_false] at hc
      exact ih _ c hc

/-- Helper: every citation in the deduplicated load result has a non-empty
signature. -/
theorem loadFiles_kept_signature_ne_nil :
    ∀ (files : List SourceFile) (seen : List (List Char)) (c : Citation),
      c ∈ loadFiles true files seen → get_citation_signature c ≠ [] := by
  intro files
  induction files with
  | nil => intro seen c hc; simp [loadFiles] at hc
  | cons f rest ih =>
    intro seen c hc
    obtain ⟨nm, cf⟩ := f
    cases cf with
    | unreadable => exact ih _ c hc
    | notList => exact ih _ c hc
    | items l =>
      unfold loadFiles at hc
      rcases List.mem_append.mp hc with h | h
      · exact loadItems_kept_signature_ne_nil l seen c h
      · exact ih _ c h

/-- Claim C1 as amended: a citation whose signature is empty never appears
in the loaded result when deduplication is enabled.  It is rejected by the
validity filter (which forces a non-empty signature), and the
deduplication branch itself keeps only citations with non-empty signatures
— an empty-signature citation reaching it would be dropped as a duplicate,
not kept. -/
theorem C1_empty_signature_never_loaded (c : Citation) (files : List SourceFile)
    (h : get_citation_signature c = []) :
    c ∉ load_citations_from_files files true := by
  intro hmem
  exact loadFiles_kept_signature_ne_nil files [] c hmem h

/-- Claim C1 witness: the amended statement applied to the concrete
empty-signature citation and input of the counterexample. -/
theorem C1_empty_signature_never_loaded_witness :
    get_citation_signature ({} : Citation) = [] ∧
    ({} : Citation) ∉ load_citations_from_files [⟨sl "a.json", .items [{}, {}]⟩] true :=
  ⟨by decide, C1_empty_signature_never_loaded {} _ (by decide)⟩

/-! ## Claim C10 -/

/-- Claim C10: deduplication lives only in the loader used by the divided
and combined groupings (`write_divided_doc`/`write_combined_doc` call
`load_citations_from_files files true`, the default).  A valid citation
present in two collections survives the deduplicating load once, survives
a non-deduplicating load twice, and the sources grouping — which re-reads
each collection independently and never calls the loader — lists it once
under each collection's heading. -/
theorem C10_dedup_scope (fmt : Citation → List Char) (c : Citation) (n1 n2 : List Char)
    (hv : has_valid_content c = true) (hf : fmt c ≠ []) :
    load_citations_from_files [⟨n1, .items [c]⟩, ⟨n2, .items [c]⟩] true = [c] ∧
    load_citations_from_files [⟨n1, .items [c]⟩, ⟨n2, .items [c]⟩] false = [c, c] ∧
    sourceEntries fmt [c] = [fmt c] ∧
    sourcesBlock fmt ⟨n1, .items [c]⟩
      = sl "## " ++ srcName n1 ++ sl " (1 sources)\n\n" ++ sl "* " ++ fmt c ++ sl "\n"
        ++ sl "\n" ∧
    sourcesBlock fmt ⟨n2, .items [c]⟩
      = sl "## " ++ srcName n2 ++ sl " (1 sources)\n\n" ++ sl "* " ++ fmt c ++ sl "\n"
        ++ sl "\n" := by
  have hs := signature_ne_nil_of_valid c hv
  have hsE : (get_citation_signature c).isEmpty = false := by
    simpa [List.isEmpty_iff] using hs
  have hfE : (fmt c).isEmpty = false := by
    simpa [List.isEmpty_iff] using hf
  have hse : sourceEntries fmt [c] = [fmt c] := by
    simp [sourceEntries, hv, hf, hfE, List.isEmpty_iff]
  have hblock : ∀ nm : List Char, sourcesBlock fmt ⟨nm, .items [c]⟩
      = sl "## " ++ srcName nm ++ sl " (1 sources)\n\n" ++ sl "* " ++ fmt c ++ sl "\n"
        ++ sl "\n" := by
    intro nm
    simp [sourcesBlock, hse, entryLines, sortEntries, stableSort, insertSorted,
      show natToStr 1 = sl "1" from rfl, sl]
  refine ⟨?_, ?_, hse, hblock n1, hblock n2⟩
  · simp [load_citations_from_files, loadFiles, loadItems, hv, hsE, List.contains_cons]
  · simp [load_citations_from_files, loadFiles, loadItems, hv]

/-- Claim C10 witness: the Chicago formatter and a concrete valid citation
present in two collections. -/
theorem C10_dedup_scope_witness :
    load_citations_from_files [⟨sl "a.json", .items [cGood]⟩, ⟨sl "b.json", .items [cGood]⟩] true
      = [cGood] ∧
    load_citations_from_files [⟨sl "a.json", .items [cGood]⟩, ⟨sl "b.json", .items [cGood]⟩] false
      = [cGood, cGood] ∧
    sourceEntries chicago_format [cGood] = [chicago_format cGood] ∧
    sourcesBlock chicago_format ⟨sl "a.json", .items [cGood]⟩
      = sl "## " ++ srcName (sl "a.json") ++ sl " (1 sources)\n\n" ++ sl "* "
        ++ chicago_format cGood ++ sl "\n" ++ sl "\n" ∧
    sourcesBlock chicago_format ⟨sl "b.json", .items [cGood]⟩
      = sl "## " ++ srcName (sl "b.json") ++ sl " (1 sources)\n\n" ++ sl "* "
        ++ chicago_format cGood ++ sl "\n" ++ sl "\n" :=
  C10_dedup_scope chicago_format cGood (sl "a.json") (sl "b.json") (by decide) (by decide)

/-! ## Claim C8 -/

/-- Helper: an unreadable collection leaves the loader's result and
seen-signature threading untouched, wherever it sits in the file list. -/
theorem loadFiles_splice_unreadable (d : Bool) (nm : List Char) :
    ∀ (A B : List SourceFile) (seen : List (List Char)),
      loadFiles d (A ++ ⟨nm, .unreadable⟩ :: B) seen = loadFiles d (A ++ B) seen := by
  intro A
  induction A with
  | nil => intro B seen; rfl
  | cons f rest ih =>
    intro B seen
    obtain ⟨nmf, cf⟩ := f
    cases cf with
    | unreadable => simpa [loadFiles] using ih B seen
    | notList => simpa [loadFiles] using ih B seen
    | items l => simp [loadFiles, ih]

/-- Claim C8: one unreadable/malformed collection never aborts the others.
The deduplicating loader (hence the divided and combined documents) is
unchanged by its presence; the per-source documents contain exactly the
blocks of the other collections, unchanged, plus a heading for the bad
collection annotated with a zero count. -/
theorem C8_bad_collection_tolerated (fmt : Citation → List Char) (style nm : List Char)
    (A B : List SourceFile) :
    load_citations_from_files (A ++ ⟨nm, .unreadable⟩ :: B) true
      = load_citations_from_files (A ++ B) true ∧
    load_citations_from_files (A ++ ⟨nm, .unreadable⟩ :: B) false
      = load_citations_from_files (A ++ B) false ∧
    write_divided_doc fmt style (A ++ ⟨nm, .unreadable⟩ :: B)
      = write_divided_doc fmt style (A ++ B) ∧
    write_combined_doc fmt style (A ++ ⟨nm, .unreadable⟩ :: B)
      = write_combined_doc fmt style (A ++ B) ∧
    sourcesBlock fmt ⟨nm, .unreadable⟩
      = sl "## " ++ srcNameExc nm ++ sl " (0 sources)\n\n" ++ sl "\n" ∧
    write_sources_doc fmt style (A ++ ⟨nm, .unreadable⟩ :: B)
      = sl "# Bibliography by Source (" ++ pyCapitalize style ++ sl ")\n\n"
        ++ (A.map (sourcesBlock fmt)).flatten
        ++ (sl "## " ++ srcNameExc nm ++ sl " (0 sources)\n\n" ++ sl "\n")
        ++ (B.map (sourcesBlock fmt)).flatten ∧
    srcDivBlock fmt ⟨nm, .unreadable⟩
      = sl "## " ++ srcNameExc nm ++ sl " (0 sources)\n\n" ++ sl "\n" ∧
    write_sources_divided_doc fmt style (A ++ ⟨nm, .unreadable⟩ :: B)
      = sl "# Bibliography by Source with Categories (" ++ pyCapitalize style ++ sl ")\n\n"
        ++ (A.map (srcDivBlock fmt)).flatten
        ++ (sl "## " ++ srcNameExc nm ++ sl " (0 sources)\n\n" ++ sl "\n")
        ++ (B.map (srcDivBlock fmt)).flatten := by
  refine ⟨?_, ?_, ?_, ?_, rfl, ?_, rfl, ?_⟩
  · exact loadFiles_splice_unreadable true nm A B []
  · exact loadFiles_splice_unreadable false nm A B []
  · unfold write_divided_doc load_citations_from_files
    rw [loadFiles_splice_unreadable]
  · unfold write_combined_doc load_citations_from_files
    rw [loadFiles_splice_unreadable]
  · unfold write_sources_doc
    simp [sourcesBlock, List.append_assoc]
  · unfold write_sources_divided_doc
    simp [srcDivBlock, List.append_assoc]

/-! ## Claim C7: groundwork on `pyReplace` -/

/-- Unfolding equation of `replAux` at skip `0` on a cons cell. -/
theorem replAux_zero_cons (pat rep : List Char) (c : Char) (rest : List Char) :
    replAux pat rep 0 (c :: rest) =
      if pat ≠ [] ∧ List.isPrefixOf pat (c :: rest) then
        rep ++ replAux pat rep (pat.length - 1) rest
      else c :: replAux pat rep 0 rest := rfl

/-- Unfolding equation of `replAux` while skipping matched characters. -/
theorem replAux_succ_cons (pat rep : List Char) (k : Nat) (c : Char) (rest : List Char) :
    replAux pat rep (k + 1) (c :: rest) = replAux pat rep k rest := rfl

/-- A single-character replacement is a character-wise substitution. -/
theorem pyReplace_char_flatMap (a : Char) (r : List Char) :
    ∀ x : List Char, pyReplace x [a] r = x.flatMap (fun c => if c = a then r else [c]) := by
  intro x
  induction x with
  | nil => rfl
  | cons c rest ih =>
    show replAux [a] r 0 (c :: rest) = _
    rw [replAux_zero_cons]
    by_cases h : c = a
    · subst h
      rw [if_pos ⟨by simp, by simp [List.isPrefixOf]⟩]
      simp only [List.flatMap_cons, if_pos rfl, List.length_cons, List.length_nil]
      exact congrArg _ ih
    · rw [if_neg]
      · simp only [List.flatMap_cons, if_neg h]
        exact congrArg _ ih
      · intro hc
        rcases List.isPrefixOf_iff_prefix.mp hc.2 with ⟨t, ht⟩
        exact h (List.cons_eq_cons.mp ht).1.symm

/-- A replacement whose pattern does not occur leaves the text unchanged. -/
theorem pyReplace_not_occurs (pat rep : List Char) :
    ∀ x, hasSub pat x = false → pyReplace x pat rep = x := by
  intro x
  induction x with
  | nil => intro h; rfl
  | cons c rest ih =>
    intro h
    simp only [hasSub, Bool.or_eq_false_iff] at h
    show replAux pat rep 0 (c :: rest) = c :: rest
    rw [replAux_zero_cons, if_neg]
    · exact congrArg _ (ih h.2)
    · intro hc
      rw [hc.2] at h
      exact Bool.true_eq_false.mp h.1

/-- A pattern that occurs as a substring has all its characters in the
text. -/
theorem hasSub_subset (pat : List Char) :
    ∀ x, hasSub pat x = true → ∀ a ∈ pat, a ∈ x := by
  intro x
  induction x with
  | nil =>
    intro h a ha
    simp only [hasSub, List.isEmpty_iff] at h
    subst h
    simp at ha
  | cons c rest ih =>
    intro h a ha
    simp only [hasSub, Bool.or_eq_true] at h
    rcases h with h | h
    · exact (List.isPrefixOf_iff_prefix.mp h).sublist.subset ha
    · exact List.mem_cons_of_mem c (ih h a ha)

/-- If some character of the pattern is missing from the text, the pattern
does not occur. -/
theorem hasSub_false_of_not_mem {a : Char} {pat x : List Char}
    (ha : a ∈ pat) (hx : a ∉ x) : hasSub pat x = false := by
  cases h : hasSub pat x with
  | false => rfl
  | true => exact absurd (hasSub_subset pat x h a ha) hx

/-- `hasSub` is the Boolean of the infix relation. -/
theorem hasSub_iff_inf (pat : List Char) :
    ∀ x, hasSub pat x = true ↔ pat <:+: x := by
  intro x
  induction x with
  | nil => simp [hasSub, List.isEmpty_iff]
  | cons c rest ih =>
    simp only [hasSub, Bool.or_eq_true, List.isPrefixOf_iff_prefix, ih,
      List.infix_cons_iff]

/-- What the full escaping pass of `escape_markdown` emits for one input
character (the net effect of the eleven sequential `str.replace` calls of
`escapeSpecials`: `<`/`>` become entities, each markdown special character
gains a backslash which the final backslash-doubling pass then doubles). -/
def escBlock (c : Char) : List Char :=
  if c = '<' then sl "&lt;"
  else if c = '>' then sl "&gt;"
  else if c = '[' then sl "\\\\["
  else if c = ']' then sl "\\\\]"
  else if c = '(' then sl "\\\\("
  else if c = ')' then sl "\\\\)"
  else if c = '*' then sl "\\\\*"
  else if c = '_' then sl "\\\\_"
  else if c = Char.ofNat 96 then ['\\', '\\', Char.ofNat 96]
  else if c = '#' then sl "\\\\#"
  else if c = '\\' then sl "\\\\"
  else [c]

/-- What remains of `escBlock c` after the cleanup pass has removed the
doubled backslashes. -/
def decodeBlock (c : Char) : List Char :=
  if c = '<' then sl "&lt;" else if c = '>' then sl "&gt;" else [c]

/-- What remains of `decodeBlock c` after `&lt;` has been decoded. -/
def decodeBlock1 (c : Char) : List Char :=
  if c = '>' then sl "&gt;" else [c]

/-- The escaping pass is the character-wise substitution `escBlock`. -/
theorem escapeSpecials_flatMap :
    ∀ x : List Char, escapeSpecials x = x.flatMap escBlock := by
  intro x
  unfold escapeSpecials
  rw [show sl "<" = ['<'] from rfl, show sl ">" = ['>'] from rfl,
    show sl "[" = ['['] from rfl, show sl "]" = [']'] from rfl,
    show sl "(" = ['('] from rfl, show sl ")" = [')'] from rfl,
    show sl "*" = ['*'] from rfl, show sl "_" = ['_'] from rfl,
    show sl "`" = [Char.ofNat 96] from rfl, show sl "#" = ['#'] from rfl,
    show sl "\\" = ['\\'] from rfl]
  rw [pyReplace_char_flatMap, pyReplace_char_flatMap, pyReplace_char_flatMap,
    pyReplace_char_flatMap, pyReplace_char_flatMap, pyReplace_char_flatMap,
    pyReplace_char_flatMap, pyReplace_char_flatMap, pyReplace_char_flatMap,
    pyReplace_char_flatMap, pyReplace_char_flatMap]
  rw [List.flatMap_assoc, List.flatMap_assoc, List.flatMap_assoc, List.flatMap_assoc,
    List.flatMap_assoc, List.flatMap_assoc, List.flatMap_assoc, List.flatMap_assoc,
    List.flatMap_assoc, List.flatMap_assoc]
  refine congrArg x.flatMap (funext fun c => ?_)
  by_cases h1 : c = '<'
  · subst h1; decide
  by_cases h2 : c = '>'
  · subst h2; decide
  by_cases h3 : c = '['
  · subst h3; decide
  by_cases h4 : c = ']'
  · subst h4; decide
  by_cases h5 : c = '('
  · subst h5; decide
  by_cases h6 : c = ')'
  · subst h6; decide
  by_cases h7 : c = '*'
  · subst h7; decide
  by_cases h8 : c = '_'
  · subst h8; decide
  by_cases h9 : c = Char.ofNat 96
  · subst h9; decide
  by_cases h10 : c = '#'
  · subst h10; decide
  by_cases h11 : c = '\\'
  · subst h11; decide
  simp [escBlock, h1, h2, h3, h4, h5, h6, h7, h8, h9, h10, h11]

/-- One scanning step of `pyReplace` over a character that cannot start a
match. -/
theorem pyReplace_skip1 (pat rep : List Char) (c : Char) (z : List Char)
    (h : List.isPrefixOf pat (c :: z) = false) :
    pyReplace (c :: z) pat rep = c :: pyReplace z pat rep := by
  show replAux pat rep 0 (c :: z) = _
  rw [replAux_zero_cons, if_neg]
  · rfl
  · intro hc
    rw [hc.2] at h
    exact Bool.true_eq_false.mp h

/-- `pyReplace` passes over a backslash-free segment of the text when the
pattern is the doubled backslash. -/
theorem pyReplace_bs2_seg (u : List Char) (hu : '\\' ∉ u) (z : List Char) :
    pyReplace (u ++ z) (sl "\\\\") [] = u ++ pyReplace z (sl "\\\\") [] := by
  induction u with
  | nil => rfl
  | cons c u' ih =>
    have hc : c ≠ '\\' := fun h => hu (h ▸ List.mem_cons_self c u')
    have hu' : '\\' ∉ u' := fun h => hu (List.mem_cons_of_mem c h)
    rw [List.cons_append, pyReplace_skip1]
    · rw [ih hu', List.cons_append]
    · simp only [sl]
      show (('\\' == c) && _) = false
      simp [beq_eq_false_iff_ne, Ne.symm hc]

/-- `pyReplace` with pattern `\\` removes a leading doubled backslash. -/
theorem pyReplace_bs2_match (z : List Char) :
    pyReplace ('\\' :: '\\' :: z) (sl "\\\\") [] = pyReplace z (sl "\\\\") [] := by
  show replAux _ _ 0 _ = _
  rw [replAux_zero_cons, if_pos]
  · rfl
  · exact ⟨by simp [sl], by simp [sl, List.isPrefixOf]⟩

/-- Every markdown-special character other than `<`, `>` and the backslash
maps under `escBlock` to two backslashes followed by itself, or to itself
alone; in both cases the cleanup keeps exactly the character. -/
theorem escBlock_shape (c : Char) (h1 : c ≠ '<') (h2 : c ≠ '>') (h3 : c ≠ '\\') :
    escBlock c = [c] ∨ escBlock c = '\\' :: '\\' :: [c] := by
  by_cases e1 : c = '['
  · subst e1; right; decide
  by_cases e2 : c = ']'
  · subst e2; right; decide
  by_cases e3 : c = '('
  · subst e3; right; decide
  by_cases e4 : c = ')'
  · subst e4; right; decide
  by_cases e5 : c = '*'
  · subst e5; right; decide
  by_cases e6 : c = '_'
  · subst e6; right; decide
  by_cases e7 : c = Char.ofNat 96
  · subst e7; right; decide
  by_cases e8 : c = '#'
  · subst e8; right; decide
  left
  simp [escBlock, h1, h2, h3, e1, e2, e3, e4, e5, e6, e7, e8]

/-- Cleanup step 1 on escaped text: removing doubled backslashes turns
`escBlock` output into `decodeBlock` output. -/
theorem bs_removal_flatMap (w : List Char) (hbs : '\\' ∉ w) :
    pyReplace (w.flatMap escBlock) (sl "\\\\") [] = w.flatMap decodeBlock := by
  induction w with
  | nil => rfl
  | cons c rest ih =>
    have hc : c ≠ '\\' := fun h => hbs (h ▸ List.mem_cons_self c rest)
    have hrest : '\\' ∉ rest := fun h => hbs (List.mem_cons_of_mem c h)
    rw [List.flatMap_cons, List.flatMap_cons]
    by_cases h1 : c = '<'
    · subst h1
      rw [show escBlock '<' = sl "&lt;" from rfl, show decodeBlock '<' = sl "&lt;" from rfl]
      rw [pyReplace_bs2_seg (sl "&lt;") (by decide)]
      rw [ih hrest]
    by_cases h2 : c = '>'
    · subst h2
      rw [show escBlock '>' = sl "&gt;" from rfl, show decodeBlock '>' = sl "&gt;" from rfl]
      rw [pyReplace_bs2_seg (sl "&gt;") (by decide)]
      rw [ih hrest]
    have hdec : decodeBlock c = [c] := by simp [decodeBlock, h1, h2]
    rcases escBlock_shape c h1 h2 hc with hesc | hesc
    · rw [hesc, hdec]
      rw [show ([c] : List Char) ++ rest.flatMap escBlock = c :: rest.flatMap escBlock from rfl]
      rw [pyReplace_skip1]
      · rw [ih hrest]
        rfl
      · simp only [sl]
        show (('\\' == c) && _) = false
        simp [beq_eq_false_iff_ne, Ne.symm hc]
    · rw [hesc, hdec]
      rw [show ('\\' :: '\\' :: [c]) ++ rest.flatMap escBlock
            = '\\' :: '\\' :: (c :: rest.flatMap escBlock) from rfl]
      rw [pyReplace_bs2_match, pyReplace_skip1]
      · rw [ih hrest]
        rfl
      · simp only [sl]
        show (('\\' == c) && _) = false
        simp [beq_eq_false_iff_ne, Ne.symm hc]

/-- Peeling: a pattern made of characters other than `<`, `>`, `&` is a
prefix of `decodeBlock`-expanded text only if it is a prefix of the
original text. -/
theorem prefix_through_decode (p : List Char)
    (hp : ∀ a ∈ p, a ≠ '<' ∧ a ≠ '>' ∧ a ≠ '&') :
    ∀ w : List Char, List.isPrefixOf p (w.flatMap decodeBlock) = true →
      List.isPrefixOf p w = true := by
  induction p with
  | nil => intro w _; cases w <;> rfl
  | cons a p' ih =>
    intro w h
    cases w with
    | nil => simp [List.isPrefixOf] at h
    | cons d w' =>
      rw [List.flatMap_cons] at h
      by_cases hd1 : d = '<'
      · subst hd1
        rw [show decodeBlock '<' = '&' :: sl "lt;" from rfl] at h
        have ha := (hp a (List.mem_cons_self a p')).2.2
        simp [List.isPrefixOf, beq_eq_false_iff_ne, ha] at h
      by_cases hd2 : d = '>'
      · subst hd2
        rw [show decodeBlock '>' = '&' :: sl "gt;" from rfl] at h
        have ha := (hp a (List.mem_cons_self a p')).2.2
        simp [List.isPrefixOf, beq_eq_false_iff_ne, ha] at h
      · rw [show decodeBlock d = [d] from by simp [decodeBlock, hd1, hd2],
          List.cons_append, List.nil_append] at h
        simp only [List.isPrefixOf, Bool.and_eq_true] at h ⊢
        exact ⟨h.1, ih (fun b hb => hp b (List.mem_cons_of_mem a hb)) w' h.2⟩

/-- Peeling for `decodeBlock1`: a pattern avoiding `>` and `&`. -/
theorem prefix_through_decode1 (p : List Char)
    (hp : ∀ a ∈ p, a ≠ '>' ∧ a ≠ '&') :
    ∀ w : List Char, List.isPrefixOf p (w.flatMap decodeBlock1) = true →
      List.isPrefixOf p w = true := by
  induction p with
  | nil => intro w _; cases w <;> rfl
  | cons a p' ih =>
    intro w h
    cases w with
    | nil => simp [List.isPrefixOf] at h
    | cons d w' =>
      rw [List.flatMap_cons] at h
      by_cases hd2 : d = '>'
      · subst hd2
        rw [show decodeBlock1 '>' = '&' :: sl "gt;" from rfl] at h
        have ha := (hp a (List.mem_cons_self a p')).2
        simp [List.isPrefixOf, beq_eq_false_iff_ne, ha] at h
      · rw [show decodeBlock1 d = [d] from by simp [decodeBlock1, hd2],
          List.cons_append, List.nil_append] at h
        simp only [List.isPrefixOf, Bool.and_eq_true] at h ⊢
        exact ⟨h.1, ih (fun b hb => hp b (List.mem_cons_of_mem a hb)) w' h.2⟩

/-- Cleanup decode of `&lt;` on backslash-cleaned escaped text: turns
`decodeBlock` output into `decodeBlock1` output, provided the original
text did not itself contain `&lt;`. -/
theorem decode_lt_flatMap (w : List Char) (hlt : hasSub (sl "&lt;") w = false) :
    pyReplace (w.flatMap decodeBlock) (sl "&lt;") (sl "<") = w.flatMap decodeBlock1 := by
  induction w with
  | nil => rfl
  | cons c rest ih =>
    simp only [hasSub, Bool.or_eq_false_iff] at hlt
    rw [List.flatMap_cons, List.flatMap_cons]
    by_cases h1 : c = '<'
    · subst h1
      rw [show decodeBlock '<' = sl "&lt;" from rfl, show decodeBlock1 '<' = ['<'] from rfl]
      show replAux _ _ 0 ('&' :: (sl "lt;" ++ rest.flatMap decodeBlock)) = _
      rw [replAux_zero_cons, if_pos]
      · rw [show (sl "&lt;").length - 1 = 3 from rfl]
        show sl "<" ++ replAux _ _ 0 (rest.flatMap decodeBlock) = _
        rw [show (replAux (sl "&lt;") (sl "<") 0 (rest.flatMap decodeBlock))
              = pyReplace (rest.flatMap decodeBlock) (sl "&lt;") (sl "<") from rfl]
        rw [ih hlt.2]
        rfl
      · refine ⟨by simp [sl], ?_⟩
        rw [show ('&' :: (sl "lt;" ++ rest.flatMap decodeBlock))
              = sl "&lt;" ++ rest.flatMap decodeBlock from rfl]
        exact List.isPrefixOf_iff_prefix.mpr (List.prefix_append _ _)
    by_cases h2 : c = '>'
    · subst h2
      rw [show decodeBlock '>' = sl "&gt;" from rfl, show decodeBlock1 '>' = sl "&gt;" from rfl]
      rw [show sl "&gt;" ++ rest.flatMap decodeBlock
            = '&' :: 'g' :: 't' :: ';' :: rest.flatMap decodeBlock from rfl]
      rw [pyReplace_skip1 _ _ _ _ (by simp [sl, List.isPrefixOf]),
        pyReplace_skip1 _ _ _ _ (by simp [sl, List.isPrefixOf]),
        pyReplace_skip1 _ _ _ _ (by simp [sl, List.isPrefixOf]),
        pyReplace_skip1 _ _ _ _ (by simp [sl, List.isPrefixOf])]
      rw [ih hlt.2]
      rfl
    · rw [show decodeBlock c = [c] from by simp [decodeBlock, h1, h2],
        show decodeBlock1 c = [c] from by simp [decodeBlock1, h2],
        List.cons_append, List.nil_append, List.cons_append, List.nil_append]
      by_cases h3 : c = '&'
      · subst h3
        rw [pyReplace_skip1]
        · rw [ih hlt.2]
        · cases hpre : List.isPrefixOf (sl "&lt;") ('&' :: rest.flatMap decodeBlock) with
          | false => rfl
          | true =>
            exfalso
            have htl : List.isPrefixOf (sl "lt;") (rest.flatMap decodeBlock) = true := by
              simpa [sl, List.isPrefixOf] using hpre
            have := prefix_through_decode (sl "lt;") (by decide) rest htl
            have : List.isPrefixOf (sl "&lt;") ('&' :: rest) = true := by
              simpa [sl, List.isPrefixOf] using this
            rw [this] at hlt
            exact Bool.true_eq_false.mp hlt.1
      · rw [pyReplace_skip1]
        · rw [ih hlt.2]
        · simp only [sl]
          show (('&' == c) && _) = false
          simp [beq_eq_false_iff_ne, Ne.symm h3]

/-- Cleanup decode of `&gt;`: recovers the original text, provided it did
not itself contain `&gt;`. -/
theorem decode_gt_flatMap (w : List Char) (hgt : hasSub (sl "&gt;") w = false) :
    pyReplace (w.flatMap decodeBlock1) (sl "&gt;") (sl ">") = w := by
  induction w with
  | nil => rfl
  | cons c rest ih =>
    simp only [hasSub, Bool.or_eq_false_iff] at hgt
    rw [List.flatMap_cons]
    by_cases h2 : c = '>'
    · subst h2
      rw [show decodeBlock1 '>' = sl "&gt;" from rfl]
      show replAux _ _ 0 ('&' :: (sl "gt;" ++ rest.flatMap decodeBlock1)) = _
      rw [replAux_zero_cons, if_pos]
      · rw [show (sl "&gt;").length - 1 = 3 from rfl]
        show sl ">" ++ replAux _ _ 0 (rest.flatMap decodeBlock1) = _
        rw [show (replAux (sl "&gt;") (sl ">") 0 (rest.flatMap decodeBlock1))
              = pyReplace (rest.flatMap decodeBlock1) (sl "&gt;") (sl ">") from rfl]
        rw [ih hgt.2]
        rfl
      · refine ⟨by simp [sl], ?_⟩
        rw [show ('&' :: (sl "gt;" ++ rest.flatMap decodeBlock1))
              = sl "&gt;" ++ rest.flatMap decodeBlock1 from rfl]
        exact List.isPrefixOf_iff_prefix.mpr (List.prefix_append _ _)
    · rw [show decodeBlock1 c = [c] from by simp [decodeBlock1, h2],
        List.cons_append, List.nil_append]
      by_cases h3 : c = '&'
      · subst h3
        rw [pyReplace_skip1]
        · rw [ih hgt.2]
        · cases hpre : List.isPrefixOf (sl "&gt;") ('&' :: rest.flatMap decodeBlock1) with
          | false => rfl
          | true =>
            exfalso
            have htl : List.isPrefixOf (sl "gt;") (rest.flatMap decodeBlock1) = true := by
              simpa [sl, List.isPrefixOf] using hpre
            have := prefix_through_decode1 (sl "gt;") (by decide) rest htl
            have : List.isPrefixOf (sl "&gt;") ('&' :: rest) = true := by
              simpa [sl, List.isPrefixOf] using this
            rw [this] at hgt
            exact Bool.true_eq_false.mp hgt.1
      · rw [pyReplace_skip1]
        · rw [ih hgt.2]
        · simp only [sl]
          show (('&' == c) && _) = false
          simp [beq_eq_false_iff_ne, Ne.symm h3]

/-- Adjacency invariant of whitespace-collapsed text: no two neighbouring
whitespace characters. -/
def noWsPair (a b : Char) : Prop := pyIsSpace a = false ∨ pyIsSpace b = false

/-- The head of a string, if any, is not whitespace. -/
def headOk : List Char → Prop
  | [] => True
  | c :: _ => pyIsSpace c = false

/-- After a collapse step inside a whitespace run, the next emitted
character is not whitespace. -/
theorem collapseAux_true_headOk : ∀ x : List Char, headOk (collapseAux true x) := by
  intro x
  induction x with
  | nil => trivial
  | cons c rest ih =>
    by_cases hc : pyIsSpace c = true
    · simpa [collapseAux, hc] using ih
    · simp only [collapseAux, hc, if_false, Bool.false_eq_true]
      simpa [headOk] using Bool.not_eq_true _ ▸ hc

/-- Collapsed text never has two adjacent whitespace characters. -/
theorem collapseAux_chain : ∀ (x : List Char) (b : Bool),
    List.Chain' noWsPair (collapseAux b x) := by
  intro x
  induction x with
  | nil => intro b; cases b <;> exact List.chain'_nil
  | cons c rest ih =>
    intro b
    by_cases hc : pyIsSpace c = true
    · cases b with
      | true => simpa [collapseAux, hc] using ih true
      | false =>
        simp only [collapseAux, hc, if_true]
        rw [List.chain'_cons']
        refine ⟨?_, ih true⟩
        intro y hy
        have hh := collapseAux_true_headOk rest
        cases hcol : collapseAux true rest with
        | nil => rw [hcol] at hy; simp at hy
        | cons d t =>
          rw [hcol] at hy hh
          simp only [List.head?_cons, Option.mem_def, Option.some.injEq] at hy
          subst hy
          exact Or.inr hh
    · have hcf : pyIsSpace c = false := by simpa using hc
      cases b with
      | true =>
        simp only [collapseAux, hc, if_false, Bool.false_eq_true]
        rw [List.chain'_cons']
        exact ⟨fun y _ => Or.inl hcf, ih false⟩
      | false =>
        simp only [collapseAux, hc, if_false, Bool.false_eq_true]
        rw [List.chain'_cons']
        exact ⟨fun y _ => Or.inl hcf, ih false⟩

/-- Every whitespace character of collapsed text is the plain space. -/
theorem collapseAux_allSp : ∀ (x : List Char) (b : Bool) (c : Char),
    c ∈ collapseAux b x → pyIsSpace c = true → c = ' ' := by
  intro x
  induction x with
  | nil => intro b c hc; simp [collapseAux] at hc
  | cons d rest ih =>
    intro b c hc hsp
    by_cases hd : pyIsSpace d = true
    · cases b with
      | true =>
        rw [show collapseAux true (d :: rest) = collapseAux true rest from by
          simp [collapseAux, hd]] at hc
        exact ih true c hc hsp
      | false =>
        rw [show collapseAux false (d :: rest) = ' ' :: collapseAux true rest from by
          simp [collapseAux, hd]] at hc
        rcases List.mem_cons.mp hc with h | h
        · exact h
        · exact ih true c h hsp
    · have : collapseAux b (d :: rest) = d :: collapseAux false rest := by
        cases b <;> simp [collapseAux, hd]
      rw [this] at hc
      rcases List.mem_cons.mp hc with h | h
      · subst h
        simp [hsp] at hd
      · exact ih false c h hsp

/-- The characters of collapsed text come from the input, except for the
replacement space. -/
theorem mem_collapseAux : ∀ (x : List Char) (b : Bool) (c : Char),
    c ∈ collapseAux b x → c ∈ x ∨ c = ' ' := by
  intro x
  induction x with
  | nil => intro b c hc; simp [collapseAux] at hc
  | cons d rest ih =>
    intro b c hc
    by_cases hd : pyIsSpace d = true
    · cases b with
      | true =>
        rw [show collapseAux true (d :: rest) = collapseAux true rest from by
          simp [collapseAux, hd]] at hc
        rcases ih true c hc with h | h
        · exact Or.inl (List.mem_cons_of_mem d h)
        · exact Or.inr h
      | false =>
        rw [show collapseAux false (d :: rest) = ' ' :: collapseAux true rest from by
          simp [collapseAux, hd]] at hc
        rcases List.mem_cons.mp hc with h | h
        · exact Or.inr h
        · rcases ih true c h with h' | h'
          · exact Or.inl (List.mem_cons_of_mem d h')
          · exact Or.inr h'
    · have : collapseAux b (d :: rest) = d :: collapseAux false rest := by
        cases b <;> simp [collapseAux, hd]
      rw [this] at hc
      rcases List.mem_cons.mp hc with h | h
      · exact Or.inl (h ▸ List.mem_cons_self d rest)
      · rcases ih false c h with h' | h'
        · exact Or.inl (List.mem_cons_of_mem d h')
        · exact Or.inr h'

/-- `pyRstrip` is a prefix of its input. -/
theorem pyRstrip_pref_self (z : List Char) : pyRstrip z <+: z := by
  have h : (pyRstrip z).reverse <:+ z.reverse := by
    rw [pyRstrip, List.reverse_reverse]
    exact List.dropWhile_suffix _
  exact List.reverse_suffix.mp h

/-- `pyStrip` is an infix of its input. -/
theorem pyStrip_inf (y : List Char) : pyStrip y <:+: y := by
  exact ((pyRstrip_pref_self (pyLstrip y)).isInfix).trans
    ((List.dropWhile_suffix pyIsSpace).isInfix)

/-- The head of `dropWhile pyIsSpace` is not whitespace. -/
theorem dropWhile_sp_headOk : ∀ l : List Char, headOk (l.dropWhile pyIsSpace) := by
  intro l
  induction l with
  | nil => trivial
  | cons c rest ih =>
    by_cases hc : pyIsSpace c = true
    · simpa [List.dropWhile_cons, hc] using ih
    · have hc' : pyIsSpace c = false := by simpa using hc
      rw [show (c :: rest).dropWhile pyIsSpace = c :: rest from by
        simp [List.dropWhile_cons, hc']]
      exact hc' 

/-- `headOk` descends along prefixes. -/
theorem headOk_mono_pref {z1 z2 : List Char} (h : z1 <+: z2) (hok : headOk z2) :
    headOk z1 := by
  cases z1 with
  | nil => trivial
  | cons c t =>
    obtain ⟨u, hu⟩ := h
    rw [← hu] at hok
    exact hok

/-- A string with non-whitespace ends is fixed by `pyStrip`. -/
theorem pyStrip_fix (w : List Char) (hh : headOk w) (hr : headOk w.reverse) :
    pyStrip w = w := by
  have hl : pyLstrip w = w := by
    cases w with
    | nil => rfl
    | cons c t =>
      have hh' : pyIsSpace c = false := hh
      simp [pyLstrip, List.dropWhile_cons, hh']
  rw [pyStrip, hl, pyRstrip]
  have hrw : w.reverse.dropWhile pyIsSpace = w.reverse := by
    cases hwr : w.reverse with
    | nil => rfl
    | cons c t =>
      rw [hwr] at hr
      have hr' : pyIsSpace c = false := hr
      simp [List.dropWhile_cons, hr']
  rw [hrw, List.reverse_reverse]

/-- When the head is not whitespace, both collapse modes agree. -/
theorem collapseAux_true_eq_false (l : List Char) (h : headOk l) :
    collapseAux true l = collapseAux false l := by
  cases l with
  | nil => rfl
  | cons c t =>
    have h' : pyIsSpace c = false := h
    simp [collapseAux, h']

/-- A string with no adjacent whitespace, all of whose whitespace is the
plain space, is fixed by the collapse pass. -/
theorem collapseAux_fix : ∀ w : List Char, List.Chain' noWsPair w →
    (∀ c ∈ w, pyIsSpace c = true → c = ' ') → collapseAux false w = w := by
  intro w
  induction w with
  | nil => intro _ _; rfl
  | cons c rest ih =>
    intro hch hsp
    by_cases hc : pyIsSpace c = true
    · have hcsp : c = ' ' := hsp c (List.mem_cons_self c rest) hc
      subst hcsp
      simp only [collapseAux, if_pos hc]
      have hrest : headOk rest := by
        cases rest with
        | nil => trivial
        | cons d t =>
          have := (List.chain'_cons'.mp hch).1 d (by simp)
          rcases this with h | h
          · exact absurd h (by decide)
          · exact h
      rw [collapseAux_true_eq_false rest hrest,
        ih ((List.chain'_cons'.mp hch).2) (fun a ha hsa => hsp a (List.mem_cons_of_mem _ ha) hsa)]
    · rw [show collapseAux false (c :: rest) = c :: collapseAux false rest from by
        simp [collapseAux, hc]]
      rw [ih ((List.chain'_cons'.mp hch).2) (fun a ha hsa => hsp a (List.mem_cons_of_mem _ ha) hsa)]

/-- Peeling: a whitespace-free pattern is a prefix of collapsed text (in
scan mode) only if it is a prefix of the original text. -/
theorem prefix_through_collapse :
    ∀ (x p : List Char), (∀ a ∈ p, pyIsSpace a = false) →
      p <+: collapseAux false x → p <+: x := by
  intro x
  induction x with
  | nil =>
    intro p _ hp
    rw [show collapseAux false [] = [] from rfl] at hp
    rw [List.prefix_nil.mp hp]
  | cons c rest ih =>
    intro p hsp hp
    by_cases hc : pyIsSpace c = true
    · rw [show collapseAux false (c :: rest) = ' ' :: collapseAux true rest from by
        simp [collapseAux, hc]] at hp
      cases p with
      | nil => exact List.nil_prefix
      | cons a p' =>
        have := (List.cons_prefix_cons.mp hp).1
        subst this
        exact absurd (hsp ' ' (List.mem_cons_self _ _)) (by decide)
    · rw [show collapseAux false (c :: rest) = c :: collapseAux false rest from by
        simp [collapseAux, hc]] at hp
      cases p with
      | nil => exact List.nil_prefix
      | cons a p' =>
        obtain ⟨ha, hp'⟩ := List.cons_prefix_cons.mp hp
        subst ha
        exact List.cons_prefix_cons.mpr
          ⟨rfl, ih p' (fun b hb => hsp b (List.mem_cons_of_mem _ hb)) hp'⟩

/-- A whitespace-free pattern occurring inside collapsed text occurs
inside the original text. -/
theorem infix_through_collapse (p : List Char) (hsp : ∀ a ∈ p, pyIsSpace a = false) :
    ∀ (x : List Char) (b : Bool), p <:+: collapseAux b x → p <:+: x := by
  intro x
  induction x with
  | nil =>
    intro b hp
    rw [show collapseAux b [] = [] from by cases b <;> rfl] at hp
    rw [List.eq_nil_of_infix_nil hp]
  | cons c rest ih =>
    intro b hp
    by_cases hc : pyIsSpace c = true
    · cases b with
      | true =>
        rw [show collapseAux true (c :: rest) = collapseAux true rest from by
          simp [collapseAux, hc]] at hp
        exact List.infix_cons (ih true hp)
      | false =>
        rw [show collapseAux false (c :: rest) = ' ' :: collapseAux true rest from by
          simp [collapseAux, hc]] at hp
        rcases List.infix_cons_iff.mp hp with h | h
        · cases p with
          | nil => exact List.nil_infix
          | cons a p' =>
            have := (List.cons_prefix_cons.mp h).1
            subst this
            exact absurd (hsp ' ' (List.mem_cons_self _ _)) (by decide)
        · exact List.infix_cons (ih true h)
    · rw [show collapseAux b (c :: rest) = c :: collapseAux false rest from by
        cases b <;> simp [collapseAux, hc]] at hp
      rcases List.infix_cons_iff.mp hp with h | h
      · cases p with
        | nil => exact List.nil_infix
        | cons a p' =>
          obtain ⟨ha, hp'⟩ := List.cons_prefix_cons.mp h
          subst ha
          exact (List.cons_prefix_cons.mpr
            ⟨rfl, prefix_through_collapse rest p'
              (fun b' hb => hsp b' (List.mem_cons_of_mem _ hb)) hp'⟩).isInfix
      · exact List.infix_cons (ih false h)

/-- No backslash survives in `decodeBlock`-expanded backslash-free text. -/
theorem bs_not_mem_flatMap_decode (w : List Char) (hbs : '\\' ∉ w) :
    '\\' ∉ w.flatMap decodeBlock := by
  intro h
  rcases List.mem_flatMap.mp h with ⟨a, ha, hm⟩
  by_cases h1 : a = '<'
  · subst h1
    exact absurd hm (by decide)
  by_cases h2 : a = '>'
  · subst h2
    exact absurd hm (by decide)
  · rw [show decodeBlock a = [a] from by simp [decodeBlock, h1, h2]] at hm
    rw [List.mem_singleton.mp hm] at hbs
    exact hbs ha

/-- Cleanup is the identity on fully escaped text whose source `w` is
backslash-free, entity-free, whitespace-collapsed and stripped. -/
theorem clean_of_escaped (w : List Char) (hbs : '\\' ∉ w)
    (hlt : hasSub (sl "&lt;") w = false) (hgt : hasSub (sl "&gt;") w = false)
    (hamp : hasSub (sl "&amp;") w = false) (hq : hasSub (sl "&quot;") w = false)
    (hch : List.Chain' noWsPair w) (hsp : ∀ c ∈ w, pyIsSpace c = true → c = ' ')
    (hh : headOk w) (hr : headOk w.reverse) :
    clean_extracted_text (escapeSpecials w) = w := by
  have hbsD := bs_not_mem_flatMap_decode w hbs
  rw [escapeSpecials_flatMap]
  simp only [clean_extracted_text]
  rw [bs_removal_flatMap w hbs]
  rw [pyReplace_not_occurs _ _ _ (hasSub_false_of_not_mem (show '\\' ∈ sl "\\(" by decide) hbsD)]
  rw [pyReplace_not_occurs _ _ _ (hasSub_false_of_not_mem (show '\\' ∈ sl "\\)" by decide) hbsD)]
  rw [pyReplace_not_occurs _ _ _ (hasSub_false_of_not_mem (show '\\' ∈ sl "\\[" by decide) hbsD)]
  rw [pyReplace_not_occurs _ _ _ (hasSub_false_of_not_mem (show '\\' ∈ sl "\\]" by decide) hbsD)]
  rw [pyReplace_not_occurs _ _ _ (hasSub_false_of_not_mem (show '\\' ∈ sl "\\\"" by decide) hbsD)]
  rw [pyReplace_not_occurs _ _ _ (hasSub_false_of_not_mem (show '\\' ∈ sl "\\'" by decide) hbsD)]
  rw [pyReplace_not_occurs _ _ _ (hasSub_false_of_not_mem (show '\\' ∈ sl "\\\x7b" by decide) hbsD)]
  rw [pyReplace_not_occurs _ _ _ (hasSub_false_of_not_mem (show '\\' ∈ sl "\\\x7d" by decide) hbsD)]
  rw [decode_lt_flatMap w hlt]
  rw [decode_gt_flatMap w hgt]
  rw [pyReplace_not_occurs _ _ _ hamp]
  rw [pyReplace_not_occurs _ _ _ hq]
  rw [pyCollapseWs, collapseAux_fix w hch hsp, pyStrip_fix w hh hr]

/-- A string with "no remaining raw escape artifacts": no backslash (the
escape character the extraction cleanup targets) and none of the four HTML
entities the cleanup decodes. -/
def noRawArtifacts (s : List Char) : Prop :=
  '\\' ∉ s ∧ hasSub (sl "&lt;") s = false ∧ hasSub (sl "&gt;") s = false ∧
    hasSub (sl "&amp;") s = false ∧ hasSub (sl "&quot;") s = false

/-- Claim C7: on any string with no remaining raw escape artifacts, the
sanitization used in formatting (extraction cleanup followed by output
escaping, i.e. `escape_markdown`) is idempotent: applying it to its own
output returns that output unchanged, with no accumulation of escape
characters.  (The cleanup inside the second pass removes exactly the
backslashes and re-decodes exactly the entities the first pass introduced,
after which the escaping pass reinstates them identically.) -/
theorem C7_sanitization_idempotent (x : List Char) (h : noRawArtifacts x) :
    escape_markdown (escape_markdown x) = escape_markdown x := by
  obtain ⟨hbs, hlt, hgt, hamp, hq⟩ := h
  have hclean : clean_extracted_text x = pyStrip (pyCollapseWs x) := by
    simp only [clean_extracted_text]
    rw [pyReplace_not_occurs _ _ _ (hasSub_false_of_not_mem (show '\\' ∈ sl "\\\\" by decide) hbs)]
    rw [pyReplace_not_occurs _ _ _ (hasSub_false_of_not_mem (show '\\' ∈ sl "\\(" by decide) hbs)]
    rw [pyReplace_not_occurs _ _ _ (hasSub_false_of_not_mem (show '\\' ∈ sl "\\)" by decide) hbs)]
    rw [pyReplace_not_occurs _ _ _ (hasSub_false_of_not_mem (show '\\' ∈ sl "\\[" by decide) hbs)]
    rw [pyReplace_not_occurs _ _ _ (hasSub_false_of_not_mem (show '\\' ∈ sl "\\]" by decide) hbs)]
    rw [pyReplace_not_occurs _ _ _ (hasSub_false_of_not_mem (show '\\' ∈ sl "\\\"" by decide) hbs)]
    rw [pyReplace_not_occurs _ _ _ (hasSub_false_of_not_mem (show '\\' ∈ sl "\\'" by decide) hbs)]
    rw [pyReplace_not_occurs _ _ _ (hasSub_false_of_not_mem (show '\\' ∈ sl "\\\x7b" by decide) hbs)]
    rw [pyReplace_not_occurs _ _ _ (hasSub_false_of_not_mem (show '\\' ∈ sl "\\\x7d" by decide) hbs)]
    rw [pyReplace_not_occurs _ _ _ hlt, pyReplace_not_occurs _ _ _ hgt,
      pyReplace_not_occurs _ _ _ hamp, pyReplace_not_occurs _ _ _ hq]
  have hwInf : pyStrip (pyCollapseWs x) <:+: collapseAux false x := pyStrip_inf _
  have hbs_w : '\\' ∉ pyStrip (pyCollapseWs x) := by
    intro hm
    rcases mem_collapseAux x false '\\' (hwInf.sublist.subset hm) with h' | h'
    · exact hbs h'
    · exact absurd h' (by decide)
  have hent : ∀ pat : List Char, (∀ a ∈ pat, pyIsSpace a = false) →
      hasSub pat x = false → hasSub pat (pyStrip (pyCollapseWs x)) = false := by
    intro pat hpat hx
    cases hsub : hasSub pat (pyStrip (pyCollapseWs x)) with
    | false => rfl
    | true =>
      exfalso
      have hinf := (hasSub_iff_inf pat _).mp hsub
      have : pat <:+: x := infix_through_collapse pat hpat x false (hinf.trans hwInf)
      rw [(hasSub_iff_inf pat x).mpr this] at hx
      exact Bool.true_eq_false.mp hx
  have hch : List.Chain' noWsPair (pyStrip (pyCollapseWs x)) :=
    List.Chain'.infix (collapseAux_chain x false) hwInf
  have hsp : ∀ c ∈ pyStrip (pyCollapseWs x), pyIsSpace c = true → c = ' ' :=
    fun c hc hspc => collapseAux_allSp x false c (hwInf.sublist.subset hc) hspc
  have hh : headOk (pyStrip (pyCollapseWs x)) :=
    headOk_mono_pref (pyRstrip_pref_self _) (dropWhile_sp_headOk _)
  have hr : headOk (pyStrip (pyCollapseWs x)).reverse := by
    show headOk (pyRstrip (pyLstrip (pyCollapseWs x))).reverse
    rw [pyRstrip, List.reverse_reverse]
    exact dropWhile_sp_headOk _
  show escapeSpecials (clean_extracted_text (escapeSpecials (clean_extracted_text x)))
    = escapeSpecials (clean_extracted_text x)
  rw [hclean, clean_of_escaped _ hbs_w
    (hent (sl "&lt;") (by decide) hlt) (hent (sl "&gt;") (by decide) hgt)
    (hent (sl "&amp;") (by decide) hamp) (hent (sl "&quot;") (by decide) hq)
    hch hsp hh hr]

/-- Claim C7 witness: idempotence at a concrete artifact-free string that
exercises entity encoding, markdown escaping and whitespace collapsing. -/
theorem C7_sanitization_idempotent_witness :
    noRawArtifacts (sl "a [b] *c* <d>  #e") ∧
    escape_markdown (escape_markdown (sl "a [b] *c* <d>  #e"))
      = escape_markdown (sl "a [b] *c* <d>  #e") :=
  ⟨⟨by decide, by decide, by decide, by decide, by decide⟩,
    C7_sanitization_idempotent (sl "a [b] *c* <d>  #e")
      ⟨by decide, by decide, by decide, by decide, by decide⟩⟩
